import Mathlib

/-!
Verification of the geospatial compliance clustering engine of the rcv-api
repository: `GeospatialAnalyticsService.analyzeComplianceReports` in
`src/services/analyticService.ts` and the HTTP handler `analyzeCompliance`
in `src/controllers/analytics/Analytics.ts`.

JavaScript numbers are modelled as rationals; values that may be `NaN` are
modelled by `JsNum`.  The DBSCAN clustering (`turf.clustersDbscan`) and the
great-circle distance (`turf.distance`) come from the external `@turf/turf`
library whose code is not part of the repository; the clustering is modelled
from the specification (section 4.1 of the design document) and the distance
is an abstract parameter `d : Coord → Coord → ℚ`, with the properties of the
haversine distance (symmetry, nonnegativity, `d p p = 0`) assumed only where
a statement needs them.  The `timestamp` field of the result (wall-clock
time) is omitted.
-/

namespace RcvApi

/-- A JavaScript `number` that may be `NaN`; the other values are modelled as
rationals. -/
inductive JsNum where
  | nan : JsNum
  | num (q : ℚ) : JsNum
deriving DecidableEq, Repr, Inhabited

/-- The `isNaN` test (applied in the source only to defined numbers, so no
coercion semantics are needed). -/
def JsNum.isNaN : JsNum → Bool
  | .nan => true
  | .num _ => false

/-- The rational value of a non-`NaN` JavaScript number. -/
def JsNum.toQ : JsNum → ℚ
  | .nan => 0
  | .num q => q

/-- The `location` field of a compliance report (source: `types.ts`,
`AnalyticsComplianceReport.location`): both coordinates optional. -/
structure GeoLocation where
  latitude : Option JsNum
  longitude : Option JsNum
  address : Option String
deriving DecidableEq, Repr, Inhabited

/-- Source: `enums.ts`, `ComplianceStatus`. -/
inductive ComplianceStatus where
  | COMPLIANT : ComplianceStatus
  | NON_COMPLIANT : ComplianceStatus
  | FRAUDULENT : ComplianceStatus
deriving DecidableEq, Repr, Inhabited

/-- Source: `types.ts`, `AnalyticsComplianceReport`.  The field `_id` is
renamed `mongoId`; the payload fields that the engine never reads
(`scannedData`, `nonComplianceReason`, `additionalNotes`, image URLs,
`createdAt`, `ocrBlobText`, `productSearchResult`) are omitted — the engine
only copies them through unchanged inside the `report` field of each
`ClusterPoint`. -/
structure AnalyticsComplianceReport where
  mongoId : String
  agentId : String
  status : ComplianceStatus
  location : Option GeoLocation
deriving DecidableEq, Repr, Inhabited

/-- A resolved coordinate pair (latitude, longitude in degrees). -/
structure Coord where
  lat : ℚ
  lng : ℚ
deriving DecidableEq, Repr, Inhabited

/-- The location-validity filter of `analyzeComplianceReports`
(`analyticService.ts` lines 20–25): `latitude !== undefined`,
`longitude !== undefined`, `!isNaN(latitude)`, `!isNaN(longitude)`. -/
def hasValidLocation (r : AnalyticsComplianceReport) : Bool :=
  match r.location with
  | none => false
  | some loc =>
    match loc.latitude, loc.longitude with
    | some la, some lo => !la.isNaN && !lo.isNaN
    | _, _ => false

/-- `reportsWithLocation` (`analyticService.ts` line 20). -/
def validReports (reports : List AnalyticsComplianceReport) :
    List AnalyticsComplianceReport :=
  reports.filter hasValidLocation

/-- The coordinate pair of a report; meaningful only on reports that pass
`hasValidLocation` (the source reads `location!.latitude!` after the
filter). -/
def locOf (r : AnalyticsComplianceReport) : Coord :=
  match r.location with
  | some loc =>
      { lat := (loc.latitude.getD (.num 0)).toQ,
        lng := (loc.longitude.getD (.num 0)).toQ }
  | none => { lat := 0, lng := 0 }

/-- The coordinates of the filtered reports, in filtered input order. -/
def ptsOf (rs : List AnalyticsComplianceReport) : List Coord := rs.map locOf

/-! ### The DBSCAN clustering, modelled from the spec

`turf.clustersDbscan` is external library code; the following definitions are
modelled from the spec, section 4.1 (core algorithm, steps 1–7): neighborhoods
are all points within `eps` of a point, a core point has at least `minPts`
points in its neighborhood (itself included), clusters grow from an unvisited
core point by absorbing neighborhoods transitively through core points,
already-clustered points are never reassigned, cluster ids are assigned
sequentially in discovery order, and unabsorbed points are noise. -/

/-- Modelled from the spec: the eps-neighborhood of point `i` — the indices of
all points (inclusive of `i` itself) within `eps` of it. -/
def nbrs (d : Coord → Coord → ℚ) (eps : ℚ) (pts : List Coord) (i : ℕ) :
    List ℕ :=
  (List.range pts.length).filter
    (fun j => decide (d (pts.getD i default) (pts.getD j default) ≤ eps))

/-- Modelled from the spec: a core point has at least `minPts` points in its
eps-neighborhood. -/
def isCore (d : Coord → Coord → ℚ) (eps minPts : ℚ) (pts : List Coord)
    (i : ℕ) : Bool :=
  decide (minPts ≤ ((nbrs d eps pts i).length : ℚ))

/-- Modelled from the spec: one step of cluster expansion — the set `s` of
absorbed core points grows by every core point within `eps` of a core point
of `s`. -/
def growStep (d : Coord → Coord → ℚ) (eps minPts : ℚ) (pts : List Coord)
    (s : Finset ℕ) : Finset ℕ :=
  (Finset.range pts.length).filter
    (fun j => j ∈ s ∨ (isCore d eps minPts pts j = true ∧
      ∃ k ∈ s, isCore d eps minPts pts k = true ∧
        d (pts.getD k default) (pts.getD j default) ≤ eps))

/-- Modelled from the spec: the set of core points transitively absorbed by the
cluster seeded at core point `i` (iterating the one-step expansion
`pts.length` times reaches the fixed point, see `coreReach_fixed`). -/
def coreReach (d : Coord → Coord → ℚ) (eps minPts : ℚ) (pts : List Coord)
    (i : ℕ) : Finset ℕ :=
  (growStep d eps minPts pts)^[pts.length] {i}

/-- Modelled from the spec: the seed-collection loop.  Iterating the points in
filtered input order, an unvisited core point (one not absorbed by the cluster
of any earlier seed) seeds the next cluster. -/
def seedsGo (d : Coord → Coord → ℚ) (eps minPts : ℚ) (pts : List Coord) :
    List ℕ → List ℕ → List ℕ
  | acc, [] => acc
  | acc, i :: rest =>
      seedsGo d eps minPts pts
        (if isCore d eps minPts pts i = true ∧
            ∀ s ∈ acc, i ∉ coreReach d eps minPts pts s
         then acc ++ [i] else acc) rest

/-- Modelled from the spec: the list of cluster seeds, in discovery order;
cluster `k` is the cluster seeded at `(seeds ...).get k`. -/
def seeds (d : Coord → Coord → ℚ) (eps minPts : ℚ) (pts : List Coord) :
    List ℕ :=
  seedsGo d eps minPts pts [] (List.range pts.length)

/-- Index of the first element of a list satisfying `p`, if any. -/
def firstIdx {α : Type} (p : α → Bool) : List α → Option ℕ
  | [] => none
  | x :: xs => if p x then some 0 else (firstIdx p xs).map (· + 1)

/-- Modelled from the spec: the cluster id `turf.clustersDbscan` assigns to
point `i` (`none` = noise).  A core point belongs to the first cluster whose
expansion reaches it; a non-core point is a border point of the first cluster
having a core point within `eps` of it (already-clustered points are not
reassigned, so the earliest cluster wins); all other points are noise. -/
def clusterIdOf (d : Coord → Coord → ℚ) (eps minPts : ℚ) (pts : List Coord)
    (i : ℕ) : Option ℕ :=
  if isCore d eps minPts pts i then
    firstIdx (fun s => decide (i ∈ coreReach d eps minPts pts s))
      (seeds d eps minPts pts)
  else
    firstIdx (fun s => decide (∃ k ∈ coreReach d eps minPts pts s,
        isCore d eps minPts pts k = true ∧
          d (pts.getD k default) (pts.getD i default) ≤ eps))
      (seeds d eps minPts pts)

/-! ### The service output (`analyticService.ts` lines 61–167) -/

/-- Source: `types.ts`, `ClusterPoint`.  `coordinates` is the GeoJSON pair
`[lng, lat]`; `clusterId` is the assigned cluster or the `-1` sentinel
(`clusterId ?? -1`, line 76). -/
structure ClusterPoint where
  index : ℕ
  coordinates : ℚ × ℚ
  lng : ℚ
  lat : ℚ
  report : AnalyticsComplianceReport
  clusterId : ℤ
deriving DecidableEq, Repr, Inhabited

/-- Source: `types.ts`, `ClusterInfo.compliance_stats`. -/
structure ComplianceStats where
  compliant : ℕ
  non_compliant : ℕ
  fraudulent : ℕ
deriving DecidableEq, Repr, Inhabited

/-- Source: `types.ts`, `ClusterInfo.center`. -/
structure GeoCenter where
  latitude : ℚ
  longitude : ℚ
deriving DecidableEq, Repr, Inhabited

/-- Source: `types.ts`, `ClusterInfo`. -/
structure ClusterInfo where
  cluster_id : ℕ
  size : ℕ
  center : GeoCenter
  radius_km : ℚ
  points : List ClusterPoint
  compliance_stats : ComplianceStats
deriving DecidableEq, Repr, Inhabited

/-- Source: `types.ts`, `AnalyticsResults.clustering_params`. -/
structure ClusteringParams where
  eps_km : ℚ
  min_samples : ℚ
deriving DecidableEq, Repr, Inhabited

/-- Source: `types.ts`, `AnalyticsResults.summary.compliance_overview`. -/
structure ComplianceOverview where
  total_compliant : ℕ
  total_non_compliant : ℕ
  total_fraudulent : ℕ
deriving DecidableEq, Repr, Inhabited

/-- Source: `types.ts`, `AnalyticsResults.summary`. -/
structure AnalyticsSummary where
  total_points : ℕ
  n_clusters : ℕ
  n_noise_points : ℕ
  noise_percentage : ℚ
  compliance_overview : ComplianceOverview
deriving DecidableEq, Repr, Inhabited

/-- Source: `types.ts`, `AnalyticsResults` (the wall-clock `timestamp` field
is omitted). -/
structure AnalyticsResults where
  clustering_params : ClusteringParams
  summary : AnalyticsSummary
  clusters : List ClusterInfo
  noise_points : List ClusterPoint
deriving DecidableEq, Repr, Inhabited

/-- The `ClusterPoint` built for filtered-input index `i`
(`analyticService.ts` lines 64–77). -/
def mkClusterPoint (d : Coord → Coord → ℚ) (eps minPts : ℚ)
    (rs : List AnalyticsComplianceReport) (i : ℕ) : ClusterPoint :=
  let c := (ptsOf rs).getD i default
  { index := i,
    coordinates := (c.lng, c.lat),
    lng := c.lng,
    lat := c.lat,
    report := rs.getD i default,
    clusterId := (clusterIdOf d eps minPts (ptsOf rs) i).elim (-1)
      (fun k => (k : ℤ)) }

/-- The member indices of cluster `cid`, in filtered input order
(the per-cluster push order of the loop at lines 64–87). -/
def membersIdx (d : Coord → Coord → ℚ) (eps minPts : ℚ) (pts : List Coord)
    (cid : ℕ) : List ℕ :=
  (List.range pts.length).filter
    (fun i => clusterIdOf d eps minPts pts i == some cid)

/-- The noise indices, in filtered input order (`noisePoints`, lines 62–80). -/
def noiseIdx (d : Coord → Coord → ℚ) (eps minPts : ℚ) (pts : List Coord) :
    List ℕ :=
  (List.range pts.length).filter
    (fun i => clusterIdOf d eps minPts pts i == none)

/-- Keep the first occurrence of every element, preserving order (the
insertion order of the JavaScript `Map` keys built at lines 82–85). -/
def dedupFirstGo : List ℕ → List ℕ → List ℕ
  | acc, [] => acc.reverse
  | acc, x :: xs =>
      if x ∈ acc then dedupFirstGo acc xs else dedupFirstGo (x :: acc) xs

/-- See `dedupFirstGo`. -/
def dedupFirst (l : List ℕ) : List ℕ := dedupFirstGo [] l

/-- The cluster ids present in the output, in first-occurrence order while
iterating the filtered input (the iteration order of the `Map` entries at
line 90). -/
def clusterIds (d : Coord → Coord → ℚ) (eps minPts : ℚ) (pts : List Coord) :
    List ℕ :=
  dedupFirst ((List.range pts.length).filterMap (clusterIdOf d eps minPts pts))

/-- The per-cluster compliance tally (`analyticService.ts` lines 108–121). -/
def statusCounts (points : List ClusterPoint) : ComplianceStats :=
  points.foldl
    (fun stats p =>
      match p.report.status with
      | .COMPLIANT => { stats with compliant := stats.compliant + 1 }
      | .NON_COMPLIANT =>
          { stats with non_compliant := stats.non_compliant + 1 }
      | .FRAUDULENT => { stats with fraudulent := stats.fraudulent + 1 })
    { compliant := 0, non_compliant := 0, fraudulent := 0 }

/-- The `ClusterInfo` of cluster `cid` (`analyticService.ts` lines 90–131):
centroid as the arithmetic mean of member coordinates, radius as a fold of
`max` (starting at `0`) of the distances from the centroid to the members. -/
def mkClusterInfo (d : Coord → Coord → ℚ) (eps minPts : ℚ)
    (rs : List AnalyticsComplianceReport) (cid : ℕ) : ClusterInfo :=
  let points := (membersIdx d eps minPts (ptsOf rs) cid).map
    (mkClusterPoint d eps minPts rs)
  let centerLat := (points.map (fun p => p.lat)).sum / (points.length : ℚ)
  let centerLng := (points.map (fun p => p.lng)).sum / (points.length : ℚ)
  let maxRadius := points.foldl
    (fun m p => max m (d ⟨centerLat, centerLng⟩ ⟨p.lat, p.lng⟩)) 0
  { cluster_id := cid,
    size := points.length,
    center := { latitude := centerLat, longitude := centerLng },
    radius_km := maxRadius,
    points := points,
    compliance_stats := statusCounts points }

/-- The cluster list before sorting, in first-occurrence order (line 90). -/
def clusterInfosPre (d : Coord → Coord → ℚ) (eps minPts : ℚ)
    (rs : List AnalyticsComplianceReport) : List ClusterInfo :=
  (clusterIds d eps minPts (ptsOf rs)).map (mkClusterInfo d eps minPts rs)

/-- Stable insertion into a size-descending list: the new element goes in
front of the first element whose size does not exceed it. -/
def insertBySizeDesc (c : ClusterInfo) : List ClusterInfo → List ClusterInfo
  | [] => [c]
  | x :: xs =>
      if x.size ≤ c.size then c :: x :: xs else x :: insertBySizeDesc c xs

/-- The stable size-descending sort of line 134
(`clusterInfos.sort((a, b) => b.size - a.size)`; the JavaScript sort is
required to be stable by the language standard). -/
def sortBySizeDesc : List ClusterInfo → List ClusterInfo
  | [] => []
  | c :: cs => insertBySizeDesc c (sortBySizeDesc cs)

/-- The noise `ClusterPoint` list, in filtered input order. -/
def noisePointsOf (d : Coord → Coord → ℚ) (eps minPts : ℚ)
    (rs : List AnalyticsComplianceReport) : List ClusterPoint :=
  (noiseIdx d eps minPts (ptsOf rs)).map (mkClusterPoint d eps minPts rs)

/-- The global compliance tally (`analyticService.ts` lines 137–150). -/
def overallCompliance (rs : List AnalyticsComplianceReport) :
    ComplianceOverview :=
  rs.foldl
    (fun stats r =>
      match r.status with
      | .COMPLIANT =>
          { stats with total_compliant := stats.total_compliant + 1 }
      | .NON_COMPLIANT =>
          { stats with total_non_compliant := stats.total_non_compliant + 1 }
      | .FRAUDULENT =>
          { stats with total_fraudulent := stats.total_fraudulent + 1 })
    { total_compliant := 0, total_non_compliant := 0, total_fraudulent := 0 }

/-- The error message thrown at `analyticService.ts` line 28. -/
def emptyInputMsg : String := "No reports with valid location data found"

/-- The successful result record (`analyticService.ts` lines 152–167),
built from the already-filtered `reportsWithLocation` list `rs`. -/
def buildResults (d : Coord → Coord → ℚ) (epsKm minSamples : ℚ)
    (rs : List AnalyticsComplianceReport) : AnalyticsResults :=
  let noisePts := noisePointsOf d epsKm minSamples rs
  { clustering_params := { eps_km := epsKm, min_samples := minSamples },
    summary :=
      { total_points := rs.length,
        n_clusters := (clusterIds d epsKm minSamples (ptsOf rs)).length,
        n_noise_points := noisePts.length,
        noise_percentage :=
          ((noisePts.length : ℚ) / (rs.length : ℚ)) * 100,
        compliance_overview := overallCompliance rs },
    clusters := sortBySizeDesc (clusterInfosPre d epsKm minSamples rs),
    noise_points := noisePts }

/-- `GeospatialAnalyticsService.analyzeComplianceReports`
(`analyticService.ts` lines 13–168), with the external distance function `d`
as a parameter.  Failure (the `throw` at line 28) is an `Except.error`. -/
def analyzeComplianceReports (d : Coord → Coord → ℚ)
    (reports : List AnalyticsComplianceReport) (epsKm minSamples : ℚ) :
    Except String AnalyticsResults :=
  let reportsWithLocation := validReports reports
  if reportsWithLocation.length = 0 then
    .error emptyInputMsg
  else
    .ok (buildResults d epsKm minSamples reportsWithLocation)

/-! ### The HTTP handler (`Analytics.ts` lines 25–127) -/

/-- The JavaScript `x || dflt` default applied to a parsed number
(`Analytics.ts` lines 28–29): `NaN` and `0` are falsy and fall back to the
default. -/
def jsNumOr (v : JsNum) (dflt : ℚ) : ℚ :=
  match v with
  | .nan => dflt
  | .num q => if q = 0 then dflt else q

/-- The parsed query parameters of the handler: the values of
`Number(req.query.maxDistance)` and `Number(req.query.minPoints)` (an absent
or unparsable parameter is `NaN`).  The `agentId` filter only narrows the
store query and is omitted. -/
structure AnalyzeQuery where
  maxDistance : JsNum
  minPoints : JsNum
deriving DecidableEq, Repr, Inhabited

/-- The observable outcome of one handler invocation: the 400 response
(lines 34–38), the empty-store 200 response (lines 60–73), the success 200
response (lines 108–117), or the catch-all 500 response (lines 121–125). -/
inductive HandlerResponse where
  | badRequest : HandlerResponse
  | emptyData : HandlerResponse
  | success (r : AnalyticsResults) : HandlerResponse
  | serverError (msg : String) : HandlerResponse
deriving DecidableEq, Repr, Inhabited

/-- The controller-side location filter (`Analytics.ts` lines 77–81):
`typeof latitude === 'number'` and `typeof longitude === 'number'` (`NaN` is
a number and passes). -/
def hasNumericLocation (r : AnalyticsComplianceReport) : Bool :=
  match r.location with
  | some loc => loc.latitude.isSome && loc.longitude.isSome
  | none => false

/-- The handler `analyzeCompliance` (`Analytics.ts` lines 25–127).
`storeReports` stands for the rows the store query returns (rows with a
non-null location having latitude and longitude keys, optionally narrowed by
`agentId`). -/
def analyzeCompliance (d : Coord → Coord → ℚ) (q : AnalyzeQuery)
    (storeReports : List AnalyticsComplianceReport) : HandlerResponse :=
  let maxDistance := jsNumOr q.maxDistance 1000
  let minPoints := jsNumOr q.minPoints 3
  if maxDistance ≤ 0 ∨ minPoints < 1 then
    .badRequest
  else if storeReports.length = 0 then
    .emptyData
  else
    let analyticsReports := storeReports.filter hasNumericLocation
    match analyzeComplianceReports d analyticsReports maxDistance minPoints with
    | .ok r => .success r
    | .error e => .serverError e

/-! ### Concrete instances for witnesses and counterexamples -/

/-- Absolute value on the rationals, written out so that it evaluates inside
the kernel. -/
def qAbs (q : ℚ) : ℚ := if q < 0 then -q else q

/-- A concrete computable stand-in distance for witnesses and counterexamples:
the taxicab distance on coordinates.  Like the haversine distance it is
symmetric, nonnegative and zero exactly on equal coordinates, and for points
on the equator (latitude 0) it is strictly monotone in the longitude gap, as
the haversine distance is. -/
def flatDist (a b : Coord) : ℚ := qAbs (a.lat - b.lat) + qAbs (a.lng - b.lng)

/-- A report at the given coordinates. -/
def mkReport (id : String) (la lo : ℚ) : AnalyticsComplianceReport :=
  { mongoId := id, agentId := "agent", status := .COMPLIANT,
    location := some
      { latitude := some (.num la), longitude := some (.num lo),
        address := none } }

/-! ### Generic list lemmas -/

theorem length_filter_mono {α : Type} (l : List α) (p q : α → Bool)
    (h : ∀ x ∈ l, p x = true → q x = true) :
    (l.filter p).length ≤ (l.filter q).length := by
  induction l with
  | nil => simp
  | cons x xs ih =>
    have hx := h x (List.mem_cons_self x xs)
    have ihx : (xs.filter p).length ≤ (xs.filter q).length :=
      ih (fun y hy => h y (List.mem_cons_of_mem x hy))
    by_cases hp : p x = true
    · rw [List.filter_cons_of_pos hp, List.filter_cons_of_pos (hx hp)]
      simpa using Nat.succ_le_succ ihx
    · rw [List.filter_cons_of_neg (by simpa using hp)]
      by_cases hq : q x = true
      · rw [List.filter_cons_of_pos hq]
        exact Nat.le_succ_of_le ihx
      · rw [List.filter_cons_of_neg (by simpa using hq)]
        exact ihx

theorem firstIdx_eq_none_iff {α : Type} (p : α → Bool) (l : List α) :
    firstIdx p l = none ↔ ∀ x ∈ l, p x = false := by
  induction l with
  | nil => simp [firstIdx]
  | cons x xs ih =>
    by_cases hx : p x = true
    · constructor
      · intro h
        rw [firstIdx, if_pos hx] at h
        cases h
      · intro h
        exact absurd (h x (List.mem_cons_self x xs)) (by simp [hx])
    · have hx' : p x = false := by simpa using hx
      rw [firstIdx, if_neg hx]
      simp only [Option.map_eq_none', ih]
      constructor
      · intro h y hy
        rcases List.mem_cons.mp hy with rfl | hy'
        · exact hx'
        · exact h y hy'
      · intro h y hy
        exact h y (List.mem_cons_of_mem x hy)

theorem firstIdx_isSome_of_mem {α : Type} {p : α → Bool} {l : List α} {x : α}
    (hx : x ∈ l) (hp : p x = true) : ∃ k, firstIdx p l = some k := by
  cases h : firstIdx p l with
  | some k => exact ⟨k, rfl⟩
  | none =>
    rw [firstIdx_eq_none_iff] at h
    rw [h x hx] at hp
    cases hp

theorem firstIdx_some_mem {α : Type} {p : α → Bool} {l : List α} {k : ℕ}
    (h : firstIdx p l = some k) : ∃ x ∈ l, p x = true := by
  induction l generalizing k with
  | nil => cases h
  | cons x xs ih =>
    by_cases hx : p x = true
    · exact ⟨x, List.mem_cons_self x xs, hx⟩
    · rw [firstIdx, if_neg hx] at h
      rcases Option.map_eq_some'.mp h with ⟨m, hm, _⟩
      rcases ih hm with ⟨y, hy, hpy⟩
      exact ⟨y, List.mem_cons_of_mem x hy, hpy⟩

theorem firstIdx_lt_length {α : Type} {p : α → Bool} {l : List α} {k : ℕ}
    (h : firstIdx p l = some k) : k < l.length := by
  induction l generalizing k with
  | nil => cases h
  | cons x xs ih =>
    by_cases hx : p x = true
    · rw [firstIdx, if_pos hx] at h
      cases h
      simp
    · rw [firstIdx, if_neg hx] at h
      rcases Option.map_eq_some'.mp h with ⟨m, hm, rfl⟩
      simpa using Nat.succ_lt_succ (ih hm)

theorem firstIdx_eq_some_of {p : ℕ → Bool} {l : List ℕ} {k : ℕ}
    (hk : k < l.length) (hpk : p (l.getD k 0) = true)
    (hm : ∀ m, m < k → p (l.getD m 0) = false) : firstIdx p l = some k := by
  induction l generalizing k with
  | nil => cases hk
  | cons x xs ih =>
    cases k with
    | zero =>
      rw [firstIdx, if_pos (by simpa using hpk)]
    | succ k =>
      have hx : p x = false := by simpa using hm 0 (Nat.succ_pos k)
      rw [firstIdx, if_neg (by simp [hx])]
      have : firstIdx p xs = some k :=
        ih (by simpa using Nat.lt_of_succ_lt_succ hk) (by simpa using hpk)
          (fun m hmk => by simpa using hm (m + 1) (Nat.succ_lt_succ hmk))
      rw [this]
      rfl

theorem mem_dedupFirstGo (l : List ℕ) : ∀ (acc : List ℕ) (x : ℕ),
    x ∈ dedupFirstGo acc l ↔ x ∈ acc ∨ x ∈ l := by
  induction l with
  | nil => intro acc x; simp [dedupFirstGo]
  | cons y ys ih =>
    intro acc x
    by_cases hy : y ∈ acc
    · rw [dedupFirstGo, if_pos hy, ih]
      constructor
      · rintro (h | h)
        · exact Or.inl h
        · exact Or.inr (List.mem_cons_of_mem y h)
      · rintro (h | h)
        · exact Or.inl h
        · rcases List.mem_cons.mp h with rfl | h'
          · exact Or.inl hy
          · exact Or.inr h'
    · rw [dedupFirstGo, if_neg hy, ih]
      constructor
      · rintro (h | h)
        · rcases List.mem_cons.mp h with rfl | h'
          · exact Or.inr (List.mem_cons_self x ys)
          · exact Or.inl h'
        · exact Or.inr (List.mem_cons_of_mem y h)
      · rintro (h | h)
        · exact Or.inl (List.mem_cons_of_mem y h)
        · rcases List.mem_cons.mp h with rfl | h'
          · exact Or.inl (List.mem_cons_self x acc)
          · exact Or.inr h'

theorem nodup_dedupFirstGo (l : List ℕ) : ∀ (acc : List ℕ), acc.Nodup →
    (dedupFirstGo acc l).Nodup := by
  induction l with
  | nil => intro acc h; simpa [dedupFirstGo] using List.nodup_reverse.mpr h
  | cons y ys ih =>
    intro acc h
    by_cases hy : y ∈ acc
    · rw [dedupFirstGo, if_pos hy]
      exact ih acc h
    · rw [dedupFirstGo, if_neg hy]
      exact ih (y :: acc) (List.nodup_cons.mpr ⟨hy, h⟩)

theorem mem_dedupFirst (l : List ℕ) (x : ℕ) : x ∈ dedupFirst l ↔ x ∈ l := by
  rw [dedupFirst, mem_dedupFirstGo]
  simp

theorem nodup_dedupFirst (l : List ℕ) : (dedupFirst l).Nodup :=
  nodup_dedupFirstGo l [] List.nodup_nil

theorem count_flatten_map {α β : Type} [DecidableEq α] (x : α)
    (g : β → List α) (ids : List β) :
    List.count x ((ids.map g).flatten) =
      (ids.map (fun b => List.count x (g b))).sum := by
  rw [List.count_flatten, List.map_map]
  rfl

theorem sum_map_single {ids : List ℕ} (hnd : ids.Nodup) {b0 : ℕ}
    (hb0 : b0 ∈ ids) (g : ℕ → ℕ) (hz : ∀ b ∈ ids, b ≠ b0 → g b = 0) :
    (ids.map g).sum = g b0 := by
  induction ids with
  | nil => cases hb0
  | cons b bs ih =>
    rcases List.mem_cons.mp hb0 with rfl | hb0'
    · have hzero : (bs.map g).sum = 0 := by
        apply List.sum_eq_zero
        intro y hy
        rcases List.mem_map.mp hy with ⟨b', hb', rfl⟩
        exact hz b' (List.mem_cons_of_mem _ hb')
          (fun h => (List.nodup_cons.mp hnd).1 (h ▸ hb'))
      simp [hzero]
    · have hb : b ≠ b0 :=
        fun h => (List.nodup_cons.mp hnd).1 (h ▸ hb0')
      have hz' : ∀ b ∈ bs, b ≠ b0 → g b = 0 :=
        fun x hx => hz x (List.mem_cons_of_mem _ hx)
      rw [List.map_cons, List.sum_cons, hz b (List.mem_cons_self b bs) hb,
        ih (List.nodup_cons.mp hnd).2 hb0' hz', Nat.zero_add]

theorem sum_map_zero {ids : List ℕ} (g : ℕ → ℕ)
    (hz : ∀ b ∈ ids, g b = 0) : (ids.map g).sum = 0 := by
  apply List.sum_eq_zero
  intro y hy
  rcases List.mem_map.mp hy with ⟨b', hb', rfl⟩
  exact hz b' hb'

theorem count_range_eq (x n : ℕ) :
    List.count x (List.range n) = if x < n then 1 else 0 := by
  by_cases h : x < n
  · rw [if_pos h]
    exact List.count_eq_one_of_mem (List.nodup_range n) (List.mem_range.mpr h)
  · rw [if_neg h]
    exact List.count_eq_zero_of_not_mem (by simpa using h)

theorem count_filter_eq {α : Type} [DecidableEq α] (p : α → Bool) (l : List α)
    (x : α) :
    List.count x (l.filter p) = if p x = true then List.count x l else 0 := by
  by_cases h : p x = true
  · rw [if_pos h, List.count_filter h]
  · rw [if_neg h, List.count_eq_zero.mpr]
    intro hx
    exact h (List.of_mem_filter hx)

/-! ### Lemmas about the stable size-descending sort -/

theorem insertBySizeDesc_perm (c : ClusterInfo) (l : List ClusterInfo) :
    (insertBySizeDesc c l).Perm (c :: l) := by
  induction l with
  | nil => exact List.Perm.refl _
  | cons x xs ih =>
    by_cases h : x.size ≤ c.size
    · rw [insertBySizeDesc, if_pos h]
    · rw [insertBySizeDesc, if_neg h]
      exact (ih.cons x).trans (List.Perm.swap c x xs)

theorem sortBySizeDesc_perm (l : List ClusterInfo) : (sortBySizeDesc l).Perm l := by
  induction l with
  | nil => exact List.Perm.refl _
  | cons c cs ih =>
    rw [sortBySizeDesc]
    exact (insertBySizeDesc_perm c (sortBySizeDesc cs)).trans (ih.cons c)

theorem insertBySizeDesc_sorted {c : ClusterInfo} {m : List ClusterInfo}
    (hm : m.Pairwise (fun a b => b.size ≤ a.size)) :
    (insertBySizeDesc c m).Pairwise (fun a b => b.size ≤ a.size) := by
  induction m with
  | nil => simp [insertBySizeDesc]
  | cons x xs ih =>
    rcases List.pairwise_cons.mp hm with ⟨hx, hxs⟩
    by_cases h : x.size ≤ c.size
    · rw [insertBySizeDesc, if_pos h]
      refine List.pairwise_cons.mpr ⟨?_, hm⟩
      intro y hy
      rcases List.mem_cons.mp hy with rfl | hy'
      · exact h
      · exact le_trans (hx y hy') h
    · rw [insertBySizeDesc, if_neg h]
      refine List.pairwise_cons.mpr ⟨?_, ih hxs⟩
      intro y hy
      have hy' : y ∈ c :: xs := (insertBySizeDesc_perm c xs).subset hy
      rcases List.mem_cons.mp hy' with rfl | hy''
      · exact le_of_lt (lt_of_not_le h)
      · exact hx y hy''

theorem sortBySizeDesc_sorted (l : List ClusterInfo) :
    (sortBySizeDesc l).Pairwise (fun a b => b.size ≤ a.size) := by
  induction l with
  | nil => simp [sortBySizeDesc]
  | cons c cs ih =>
    rw [sortBySizeDesc]
    exact insertBySizeDesc_sorted ih

theorem filter_size_insertBySizeDesc (c : ClusterInfo) (m : List ClusterInfo)
    (s : ℕ) :
    (insertBySizeDesc c m).filter (fun x => x.size == s) =
      if c.size = s then c :: m.filter (fun x => x.size == s)
      else m.filter (fun x => x.size == s) := by
  induction m with
  | nil =>
    by_cases h : c.size = s <;> simp [insertBySizeDesc, h]
  | cons x xs ih =>
    by_cases hle : x.size ≤ c.size
    · rw [insertBySizeDesc, if_pos hle]
      by_cases hc : c.size = s
      · rw [if_pos hc, List.filter_cons_of_pos (by simpa using hc)]
      · rw [if_neg hc, List.filter_cons_of_neg (by simpa using hc)]
    · rw [insertBySizeDesc, if_neg hle]
      by_cases hx : x.size = s
      · by_cases hc : c.size = s
        · exact absurd (hc ▸ hx ▸ le_refl x.size) hle
        · rw [if_neg hc, List.filter_cons_of_pos (by simpa using hx),
            List.filter_cons_of_pos (by simpa using hx), ih, if_neg hc]
      · by_cases hc : c.size = s
        · rw [if_pos hc, List.filter_cons_of_neg (by simpa using hx),
            List.filter_cons_of_neg (by simpa using hx), ih, if_pos hc]
        · rw [if_neg hc, List.filter_cons_of_neg (by simpa using hx),
            List.filter_cons_of_neg (by simpa using hx), ih, if_neg hc]

theorem filter_size_sortBySizeDesc (l : List ClusterInfo) (s : ℕ) :
    (sortBySizeDesc l).filter (fun x => x.size == s) =
      l.filter (fun x => x.size == s) := by
  induction l with
  | nil => rfl
  | cons c cs ih =>
    rw [sortBySizeDesc, filter_size_insertBySizeDesc]
    by_cases hc : c.size = s
    · rw [if_pos hc, ih, List.filter_cons_of_pos (by simpa using hc)]
    · rw [if_neg hc, ih, List.filter_cons_of_neg (by simpa using hc)]

/-! ### Structural lemmas about the clustering model -/

theorem mem_growStep (d : Coord → Coord → ℚ) (eps minPts : ℚ)
    (pts : List Coord) (s : Finset ℕ) (j : ℕ) :
    j ∈ growStep d eps minPts pts s ↔ j < pts.length ∧
      (j ∈ s ∨ (isCore d eps minPts pts j = true ∧
        ∃ k ∈ s, isCore d eps minPts pts k = true ∧
          d (pts.getD k default) (pts.getD j default) ≤ eps)) := by
  simp [growStep, Finset.mem_filter, Finset.mem_range]

theorem growStep_subset_range (d : Coord → Coord → ℚ) (eps minPts : ℚ)
    (pts : List Coord) (s : Finset ℕ) :
    growStep d eps minPts pts s ⊆ Finset.range pts.length :=
  Finset.filter_subset _ _

theorem subset_growStep (d : Coord → Coord → ℚ) (eps minPts : ℚ)
    (pts : List Coord) {s : Finset ℕ} (hs : s ⊆ Finset.range pts.length) :
    s ⊆ growStep d eps minPts pts s := by
  intro x hx
  rw [mem_growStep]
  exact ⟨Finset.mem_range.mp (hs hx), Or.inl hx⟩

theorem iterate_subset_range (d : Coord → Coord → ℚ) (eps minPts : ℚ)
    (pts : List Coord) {s : Finset ℕ} (hs : s ⊆ Finset.range pts.length)
    (m : ℕ) : (growStep d eps minPts pts)^[m] s ⊆ Finset.range pts.length := by
  cases m with
  | zero => simpa using hs
  | succ m =>
    rw [Function.iterate_succ_apply']
    exact growStep_subset_range d eps minPts pts _

theorem subset_iterate (d : Coord → Coord → ℚ) (eps minPts : ℚ)
    (pts : List Coord) {s : Finset ℕ} (hs : s ⊆ Finset.range pts.length)
    (m : ℕ) : s ⊆ (growStep d eps minPts pts)^[m] s := by
  induction m with
  | zero => simp
  | succ m ih =>
    rw [Function.iterate_succ_apply']
    exact ih.trans
      (subset_growStep d eps minPts pts (iterate_subset_range d eps minPts pts hs m))

theorem coreReach_subset_range (d : Coord → Coord → ℚ) (eps minPts : ℚ)
    (pts : List Coord) {i : ℕ} (hi : i < pts.length) :
    coreReach d eps minPts pts i ⊆ Finset.range pts.length :=
  iterate_subset_range d eps minPts pts
    (Finset.singleton_subset_iff.mpr (Finset.mem_range.mpr hi)) _

theorem self_mem_coreReach (d : Coord → Coord → ℚ) (eps minPts : ℚ)
    (pts : List Coord) {i : ℕ} (hi : i < pts.length) :
    i ∈ coreReach d eps minPts pts i :=
  subset_iterate d eps minPts pts
    (Finset.singleton_subset_iff.mpr (Finset.mem_range.mpr hi)) _
    (Finset.mem_singleton_self i)

theorem mem_coreReach_of_step (d : Coord → Coord → ℚ) (eps minPts : ℚ)
    (pts : List Coord) {i j : ℕ} (hi : i < pts.length)
    (hj : j ∈ growStep d eps minPts pts {i}) :
    j ∈ coreReach d eps minPts pts i := by
  obtain ⟨m, hm⟩ : ∃ m, pts.length = m + 1 :=
    ⟨pts.length - 1, (Nat.succ_pred_eq_of_pos (Nat.pos_of_ne_zero
      (fun h => by simp [h] at hi))).symm⟩
  rw [coreReach, hm, Function.iterate_succ_apply]
  exact subset_iterate d eps minPts pts
    (growStep_subset_range d eps minPts pts _ |>.trans
      (by rw [hm])) m hj

theorem iterate_fixed_propagate (d : Coord → Coord → ℚ) (eps minPts : ℚ)
    (pts : List Coord) (s : Finset ℕ)
    (hfix : growStep d eps minPts pts s = s) (k : ℕ) :
    (growStep d eps minPts pts)^[k] s = s := by
  induction k with
  | zero => rfl
  | succ k ih => rw [Function.iterate_succ_apply', ih, hfix]

/-- Iterating the one-step expansion `pts.length` times from a singleton
reaches the fixed point of the expansion, so `coreReach` is the full
transitive closure of the spec, not a truncation of it. -/
theorem coreReach_fixed (d : Coord → Coord → ℚ) (eps minPts : ℚ)
    (pts : List Coord) {i : ℕ} (hi : i < pts.length) :
    growStep d eps minPts pts (coreReach d eps minPts pts i) =
      coreReach d eps minPts pts i := by
  set f := growStep d eps minPts pts with hf
  set n := pts.length with hn
  have hsing : ({i} : Finset ℕ) ⊆ Finset.range n :=
    Finset.singleton_subset_iff.mpr (Finset.mem_range.mpr hi)
  by_contra hne
  have hnofix : ∀ m, m ≤ n → f (f^[m] {i}) ≠ f^[m] {i} := by
    intro m hm hfixm
    apply hne
    have hstay : f^[n - m + m] {i} = f^[m] {i} := by
      rw [Function.iterate_add_apply]
      exact iterate_fixed_propagate d eps minPts pts _ hfixm (n - m)
    rw [Nat.sub_add_cancel hm] at hstay
    rw [coreReach, ← hn, ← hf, hstay]
    exact hfixm
  have hcard : ∀ m, m ≤ n → m + 1 ≤ (f^[m] ({i} : Finset ℕ)).card := by
    intro m
    induction m with
    | zero => intro _; simp
    | succ m ih =>
      intro hm
      have hm' : m ≤ n := Nat.le_of_succ_le hm
      have h1 : m + 1 ≤ (f^[m] ({i} : Finset ℕ)).card := ih hm'
      have hsub : f^[m] ({i} : Finset ℕ) ⊆ f^[m + 1] {i} := by
        rw [Function.iterate_succ_apply']
        exact subset_growStep d eps minPts pts
          (iterate_subset_range d eps minPts pts hsing m)
      have hne' : f^[m] ({i} : Finset ℕ) ≠ f^[m + 1] {i} := by
        rw [Function.iterate_succ_apply']
        exact fun h => hnofix m hm' h.symm
      have hss : f^[m] ({i} : Finset ℕ) ⊂ f^[m + 1] {i} :=
        lt_of_le_of_ne hsub hne'
      exact Nat.succ_le_of_lt
        (Nat.lt_of_le_of_lt h1 (Finset.card_lt_card hss))
  have hbig : n + 1 ≤ (f^[n] ({i} : Finset ℕ)).card := hcard n (le_refl n)
  have hsmall : (f^[n] ({i} : Finset ℕ)).card ≤ n := by
    calc (f^[n] ({i} : Finset ℕ)).card
        ≤ (Finset.range n).card :=
          Finset.card_le_card (iterate_subset_range d eps minPts pts hsing n)
      _ = n := Finset.card_range n
  exact absurd (le_trans hbig hsmall) (by simp)

theorem seedsGo_append (d : Coord → Coord → ℚ) (eps minPts : ℚ)
    (pts : List Coord) (l : List ℕ) : ∀ acc : List ℕ,
    ∃ t, seedsGo d eps minPts pts acc l = acc ++ t := by
  induction l with
  | nil => intro acc; exact ⟨[], (List.append_nil acc).symm⟩
  | cons i rest ih =>
    intro acc
    rw [seedsGo]
    by_cases hc : isCore d eps minPts pts i = true ∧
        ∀ s ∈ acc, i ∉ coreReach d eps minPts pts s
    · rw [if_pos hc]
      rcases ih (acc ++ [i]) with ⟨t, ht⟩
      exact ⟨i :: t, by rw [ht, List.append_assoc]; rfl⟩
    · rw [if_neg hc]
      exact ih acc

theorem seedsGo_covers (d : Coord → Coord → ℚ) (eps minPts : ℚ)
    (pts : List Coord) (l : List ℕ) (hl : ∀ j ∈ l, j < pts.length) :
    ∀ acc : List ℕ, ∀ j ∈ l, isCore d eps minPts pts j = true →
      ∃ s ∈ seedsGo d eps minPts pts acc l,
        j ∈ coreReach d eps minPts pts s := by
  induction l with
  | nil => intro acc j hj; cases hj
  | cons i rest ih =>
    intro acc j hj hcore
    rw [seedsGo]
    rcases List.mem_cons.mp hj with rfl | hj'
    · by_cases hc : isCore d eps minPts pts j = true ∧
          ∀ s ∈ acc, j ∉ coreReach d eps minPts pts s
      · rw [if_pos hc]
        rcases seedsGo_append d eps minPts pts rest (acc ++ [j]) with ⟨t, ht⟩
        refine ⟨j, ?_, self_mem_coreReach d eps minPts pts
          (hl j (List.mem_cons_self j rest))⟩
        rw [ht]
        exact List.mem_append_left t
          (List.mem_append_right acc (List.mem_singleton.mpr rfl))
      · rw [if_neg hc]
        have : ∃ s ∈ acc, j ∈ coreReach d eps minPts pts s := by
          by_contra hno
          push_neg at hno
          exact hc ⟨hcore, hno⟩
        rcases this with ⟨s, hs, hreach⟩
        rcases seedsGo_append d eps minPts pts rest acc with ⟨t, ht⟩
        exact ⟨s, by rw [ht]; exact List.mem_append_left t hs, hreach⟩
    · by_cases hc : isCore d eps minPts pts i = true ∧
          ∀ s ∈ acc, i ∉ coreReach d eps minPts pts s
      · rw [if_pos hc]
        exact ih (fun y hy => hl y (List.mem_cons_of_mem i hy)) (acc ++ [i])
          j hj' hcore
      · rw [if_neg hc]
        exact ih (fun y hy => hl y (List.mem_cons_of_mem i hy)) acc j hj' hcore

theorem seedsGo_pairwise (d : Coord → Coord → ℚ) (eps minPts : ℚ)
    (pts : List Coord) (l : List ℕ) : ∀ acc : List ℕ,
    (acc.Pairwise fun a b => b ∉ coreReach d eps minPts pts a) →
    ((seedsGo d eps minPts pts acc l).Pairwise
      fun a b => b ∉ coreReach d eps minPts pts a) := by
  induction l with
  | nil => intro acc h; exact h
  | cons i rest ih =>
    intro acc h
    rw [seedsGo]
    by_cases hc : isCore d eps minPts pts i = true ∧
        ∀ s ∈ acc, i ∉ coreReach d eps minPts pts s
    · rw [if_pos hc]
      refine ih (acc ++ [i]) ?_
      rw [List.pairwise_append]
      refine ⟨h, List.pairwise_singleton _ i, ?_⟩
      intro a ha b hb
      rw [List.mem_singleton.mp hb]
      exact hc.2 a ha
    · rw [if_neg hc]
      exact ih acc h

theorem seedsGo_props (d : Coord → Coord → ℚ) (eps minPts : ℚ)
    (pts : List Coord) (l : List ℕ) (hl : ∀ j ∈ l, j < pts.length) :
    ∀ acc : List ℕ,
    (∀ s ∈ acc, isCore d eps minPts pts s = true ∧ s < pts.length) →
    ∀ s ∈ seedsGo d eps minPts pts acc l,
      isCore d eps minPts pts s = true ∧ s < pts.length := by
  induction l with
  | nil => intro acc h; exact h
  | cons i rest ih =>
    intro acc h
    rw [seedsGo]
    by_cases hc : isCore d eps minPts pts i = true ∧
        ∀ s ∈ acc, i ∉ coreReach d eps minPts pts s
    · rw [if_pos hc]
      refine ih (fun y hy => hl y (List.mem_cons_of_mem i hy)) (acc ++ [i]) ?_
      intro s hs
      rcases List.mem_append.mp hs with hs' | hs'
      · exact h s hs'
      · rw [List.mem_singleton.mp hs']
        exact ⟨hc.1, hl i (List.mem_cons_self i rest)⟩
    · rw [if_neg hc]
      exact ih (fun y hy => hl y (List.mem_cons_of_mem i hy)) acc h

theorem seeds_covers (d : Coord → Coord → ℚ) (eps minPts : ℚ)
    (pts : List Coord) {j : ℕ} (hj : j < pts.length)
    (hcore : isCore d eps minPts pts j = true) :
    ∃ s ∈ seeds d eps minPts pts, j ∈ coreReach d eps minPts pts s :=
  seedsGo_covers d eps minPts pts (List.range pts.length)
    (fun y hy => List.mem_range.mp hy) [] j (List.mem_range.mpr hj) hcore

theorem seeds_pairwise (d : Coord → Coord → ℚ) (eps minPts : ℚ)
    (pts : List Coord) :
    ((seeds d eps minPts pts).Pairwise
      fun a b => b ∉ coreReach d eps minPts pts a) :=
  seedsGo_pairwise d eps minPts pts (List.range pts.length) [] List.Pairwise.nil

theorem seeds_props (d : Coord → Coord → ℚ) (eps minPts : ℚ)
    (pts : List Coord) {s : ℕ} (hs : s ∈ seeds d eps minPts pts) :
    isCore d eps minPts pts s = true ∧ s < pts.length :=
  seedsGo_props d eps minPts pts (List.range pts.length)
    (fun y hy => List.mem_range.mp hy) [] (fun t ht => absurd ht
      (List.not_mem_nil t)) s hs

theorem clusterIdOf_isSome_of_core (d : Coord → Coord → ℚ) (eps minPts : ℚ)
    (pts : List Coord) {i : ℕ} (hi : i < pts.length)
    (hcore : isCore d eps minPts pts i = true) :
    ∃ k, clusterIdOf d eps minPts pts i = some k := by
  rcases seeds_covers d eps minPts pts hi hcore with ⟨s, hs, hreach⟩
  rw [clusterIdOf, if_pos hcore]
  exact firstIdx_isSome_of_mem hs (by simpa using hreach)

theorem clusterIdOf_isSome_of_border (d : Coord → Coord → ℚ) (eps minPts : ℚ)
    (pts : List Coord) {i j : ℕ} (hi : i < pts.length) (hj : j < pts.length)
    (hcore : isCore d eps minPts pts j = true)
    (hd : d (pts.getD j default) (pts.getD i default) ≤ eps)
    (hnc : isCore d eps minPts pts i = false) :
    ∃ k, clusterIdOf d eps minPts pts i = some k := by
  rcases seeds_covers d eps minPts pts hj hcore with ⟨s, hs, hreach⟩
  rw [clusterIdOf, if_neg (by simp [hnc])]
  refine firstIdx_isSome_of_mem hs ?_
  simp only [decide_eq_true_eq]
  exact ⟨j, hreach, hcore, hd⟩

/-- The noise characterization: a point is assigned no cluster exactly when
it is not core and no core point has it in its eps-neighborhood (spec,
section 4.1 step 6). -/
theorem clusterIdOf_eq_none_iff (d : Coord → Coord → ℚ) (eps minPts : ℚ)
    (pts : List Coord) {i : ℕ} (hi : i < pts.length) :
    clusterIdOf d eps minPts pts i = none ↔
      isCore d eps minPts pts i = false ∧
        ∀ j, j < pts.length → isCore d eps minPts pts j = true →
          ¬ d (pts.getD j default) (pts.getD i default) ≤ eps := by
  constructor
  · intro h
    by_cases hcore : isCore d eps minPts pts i = true
    · rcases clusterIdOf_isSome_of_core d eps minPts pts hi hcore with ⟨k, hk⟩
      rw [h] at hk
      cases hk
    · have hnc : isCore d eps minPts pts i = false := by
        simpa using hcore
      refine ⟨hnc, ?_⟩
      intro j hj hcj hdji
      rcases clusterIdOf_isSome_of_border d eps minPts pts hi hj hcj hdji hnc
        with ⟨k, hk⟩
      rw [h] at hk
      cases hk
  · rintro ⟨hnc, hno⟩
    rw [clusterIdOf, if_neg (by simp [hnc]), firstIdx_eq_none_iff]
    intro s hs
    simp only [decide_eq_false_iff_not]
    rintro ⟨k, hk, hck, hdk⟩
    have hkn : k < pts.length := Finset.mem_range.mp
      (coreReach_subset_range d eps minPts pts (seeds_props d eps minPts pts hs).2 hk)
    exact hno k hkn hck hdk

theorem isCore_mono (d : Coord → Coord → ℚ) {eps1 eps2 : ℚ} (minPts : ℚ)
    (pts : List Coord) (h : eps1 ≤ eps2) (i : ℕ)
    (hc : isCore d eps1 minPts pts i = true) :
    isCore d eps2 minPts pts i = true := by
  simp only [isCore, decide_eq_true_eq] at hc ⊢
  refine le_trans hc ?_
  have : (nbrs d eps1 pts i).length ≤ (nbrs d eps2 pts i).length := by
    apply length_filter_mono
    intro x hx hpx
    simp only [decide_eq_true_eq] at hpx ⊢
    exact le_trans hpx h
  exact_mod_cast this

theorem clusterIdOf_none_mono (d : Coord → Coord → ℚ) {eps1 eps2 : ℚ}
    (minPts : ℚ) (pts : List Coord) (h : eps1 ≤ eps2) (i : ℕ)
    (hi : i < pts.length)
    (hn : clusterIdOf d eps2 minPts pts i = none) :
    clusterIdOf d eps1 minPts pts i = none := by
  rw [clusterIdOf_eq_none_iff d eps2 minPts pts hi] at hn
  rw [clusterIdOf_eq_none_iff d eps1 minPts pts hi]
  rcases hn with ⟨hnc2, hno2⟩
  constructor
  · by_cases hc1 : isCore d eps1 minPts pts i = true
    · rw [isCore_mono d minPts pts h i hc1] at hnc2
      cases hnc2
    · simpa using hc1
  · intro j hj hcj1 hd1
    exact hno2 j hj (isCore_mono d minPts pts h j hcj1) (le_trans hd1 h)

theorem noiseIdx_length_mono (d : Coord → Coord → ℚ) {eps1 eps2 : ℚ}
    (minPts : ℚ) (pts : List Coord) (h : eps1 ≤ eps2) :
    (noiseIdx d eps2 minPts pts).length ≤
      (noiseIdx d eps1 minPts pts).length := by
  apply length_filter_mono
  intro i hi hp
  rw [beq_iff_eq] at hp ⊢
  exact clusterIdOf_none_mono d minPts pts h i (List.mem_range.mp hi) hp

/-! ### Glue lemmas about the service output -/

theorem ptsOf_length (rs : List AnalyticsComplianceReport) :
    (ptsOf rs).length = rs.length :=
  List.length_map rs locOf

theorem analyze_eq_ok_iff (d : Coord → Coord → ℚ)
    (reports : List AnalyticsComplianceReport) (eps minPts : ℚ)
    (r : AnalyticsResults) :
    analyzeComplianceReports d reports eps minPts = .ok r ↔
      validReports reports ≠ [] ∧
        r = buildResults d eps minPts (validReports reports) := by
  rw [analyzeComplianceReports]
  by_cases h : (validReports reports).length = 0
  · rw [if_pos h]
    simp [List.length_eq_zero.mp h]
  · rw [if_neg h]
    have hne : validReports reports ≠ [] := by
      intro hnil
      exact h (by rw [hnil]; rfl)
    simp [hne, eq_comm]

theorem analyze_eq_error_iff (d : Coord → Coord → ℚ)
    (reports : List AnalyticsComplianceReport) (eps minPts : ℚ) (e : String) :
    analyzeComplianceReports d reports eps minPts = .error e ↔
      validReports reports = [] ∧ e = emptyInputMsg := by
  rw [analyzeComplianceReports]
  by_cases h : (validReports reports).length = 0
  · rw [if_pos h]
    simp [List.length_eq_zero.mp h, eq_comm]
  · rw [if_neg h]
    have hne : validReports reports ≠ [] := by
      intro hnil
      exact h (by rw [hnil]; rfl)
    simp [hne]

theorem mem_membersIdx (d : Coord → Coord → ℚ) (eps minPts : ℚ)
    (pts : List Coord) (i cid : ℕ) :
    i ∈ membersIdx d eps minPts pts cid ↔
      i < pts.length ∧ clusterIdOf d eps minPts pts i = some cid := by
  simp [membersIdx, List.mem_filter, List.mem_range]

theorem mem_noiseIdx (d : Coord → Coord → ℚ) (eps minPts : ℚ)
    (pts : List Coord) (i : ℕ) :
    i ∈ noiseIdx d eps minPts pts ↔
      i < pts.length ∧ clusterIdOf d eps minPts pts i = none := by
  simp [noiseIdx, List.mem_filter, List.mem_range]

theorem mem_clusterIds_iff (d : Coord → Coord → ℚ) (eps minPts : ℚ)
    (pts : List Coord) (cid : ℕ) :
    cid ∈ clusterIds d eps minPts pts ↔
      ∃ i, i < pts.length ∧ clusterIdOf d eps minPts pts i = some cid := by
  rw [clusterIds, mem_dedupFirst]
  simp [List.mem_filterMap, List.mem_range]

theorem mem_clusterInfosPre (d : Coord → Coord → ℚ) (eps minPts : ℚ)
    (rs : List AnalyticsComplianceReport) (c : ClusterInfo) :
    c ∈ clusterInfosPre d eps minPts rs ↔
      ∃ cid ∈ clusterIds d eps minPts (ptsOf rs),
        c = mkClusterInfo d eps minPts rs cid := by
  rw [clusterInfosPre, List.mem_map]
  constructor
  · rintro ⟨cid, hcid, h⟩
    exact ⟨cid, hcid, h.symm⟩
  · rintro ⟨cid, hcid, h⟩
    exact ⟨cid, hcid, h.symm⟩

theorem mem_clusters_iff_pre (d : Coord → Coord → ℚ) (eps minPts : ℚ)
    (rs : List AnalyticsComplianceReport) (c : ClusterInfo) :
    c ∈ (buildResults d eps minPts rs).clusters ↔
      c ∈ clusterInfosPre d eps minPts rs :=
  (sortBySizeDesc_perm _).mem_iff

theorem mkClusterPoint_index (d : Coord → Coord → ℚ) (eps minPts : ℚ)
    (rs : List AnalyticsComplianceReport) (i : ℕ) :
    (mkClusterPoint d eps minPts rs i).index = i := rfl

theorem map_index_map_mk (d : Coord → Coord → ℚ) (eps minPts : ℚ)
    (rs : List AnalyticsComplianceReport) (l : List ℕ) :
    ((l.map (mkClusterPoint d eps minPts rs)).map fun p => p.index) = l := by
  induction l with
  | nil => rfl
  | cons i is ih =>
    rw [List.map_cons, List.map_cons, mkClusterPoint_index, ih]

theorem mkClusterInfo_points (d : Coord → Coord → ℚ) (eps minPts : ℚ)
    (rs : List AnalyticsComplianceReport) (cid : ℕ) :
    (mkClusterInfo d eps minPts rs cid).points =
      (membersIdx d eps minPts (ptsOf rs) cid).map
        (mkClusterPoint d eps minPts rs) := rfl

theorem mkClusterInfo_size (d : Coord → Coord → ℚ) (eps minPts : ℚ)
    (rs : List AnalyticsComplianceReport) (cid : ℕ) :
    (mkClusterInfo d eps minPts rs cid).size =
      (membersIdx d eps minPts (ptsOf rs) cid).length := by
  show ((membersIdx d eps minPts (ptsOf rs) cid).map
    (mkClusterPoint d eps minPts rs)).length = _
  rw [List.length_map]

theorem mkClusterInfo_id (d : Coord → Coord → ℚ) (eps minPts : ℚ)
    (rs : List AnalyticsComplianceReport) (cid : ℕ) :
    (mkClusterInfo d eps minPts rs cid).cluster_id = cid := rfl

theorem noisePointsOf_map_index (d : Coord → Coord → ℚ) (eps minPts : ℚ)
    (rs : List AnalyticsComplianceReport) :
    ((noisePointsOf d eps minPts rs).map fun p => p.index) =
      noiseIdx d eps minPts (ptsOf rs) :=
  map_index_map_mk d eps minPts rs _

theorem noisePointsOf_length (d : Coord → Coord → ℚ) (eps minPts : ℚ)
    (rs : List AnalyticsComplianceReport) :
    (noisePointsOf d eps minPts rs).length =
      (noiseIdx d eps minPts (ptsOf rs)).length :=
  List.length_map _ _

/-! ### The partition counting argument -/

theorem members_noise_count (d : Coord → Coord → ℚ) (eps minPts : ℚ)
    (pts : List Coord) (x : ℕ) :
    List.count x (((clusterIds d eps minPts pts).map
        (membersIdx d eps minPts pts)).flatten)
      + List.count x (noiseIdx d eps minPts pts)
      = List.count x (List.range pts.length) := by
  set n := pts.length with hn
  set f := clusterIdOf d eps minPts pts with hf
  rw [count_flatten_map]
  by_cases hx : x < n
  · cases hfx : f x with
    | none =>
      rw [sum_map_zero]
      · rw [noiseIdx, count_filter_eq, if_pos (by simp [← hf, hfx]),
          Nat.zero_add]
      · intro b hb
        rw [membersIdx, count_filter_eq, if_neg (by simp [← hf, hfx])]
    | some b0 =>
      have hb0 : b0 ∈ clusterIds d eps minPts pts := by
        rw [mem_clusterIds_iff]
        exact ⟨x, hx, hfx⟩
      have hnd : (clusterIds d eps minPts pts).Nodup := nodup_dedupFirst _
      rw [sum_map_single hnd hb0]
      · rw [membersIdx, count_filter_eq, if_pos (by simp [← hf, hfx]),
          noiseIdx, count_filter_eq, if_neg (by simp [← hf, hfx]),
          Nat.add_zero]
      · intro b hb hbne
        rw [membersIdx, count_filter_eq, if_neg]
        simp only [beq_iff_eq, ← hf, hfx, Option.some_inj]
        exact fun hc => hbne (hc ▸ rfl)
  · have hxr : x ∉ List.range n := by simpa using hx
    rw [count_range_eq, if_neg hx, sum_map_zero, Nat.zero_add]
    · rw [noiseIdx, count_filter_eq]
      by_cases hp : (f x == none) = true
      · rw [if_pos (by simpa [← hf] using hp), count_range_eq, if_neg hx]
      · rw [if_neg (by simpa [← hf] using hp)]
    · intro b hb
      rw [membersIdx, count_filter_eq]
      by_cases hp : (f x == some b) = true
      · rw [if_pos (by simpa [← hf] using hp), count_range_eq, if_neg hx]
      · rw [if_neg (by simpa [← hf] using hp)]

theorem members_noise_perm (d : Coord → Coord → ℚ) (eps minPts : ℚ)
    (pts : List Coord) :
    ((((clusterIds d eps minPts pts).map
        (membersIdx d eps minPts pts)).flatten
      ++ noiseIdx d eps minPts pts).Perm (List.range pts.length)) := by
  rw [List.perm_iff_count]
  intro x
  rw [List.count_append]
  exact members_noise_count d eps minPts pts x

theorem members_noise_length (d : Coord → Coord → ℚ) (eps minPts : ℚ)
    (pts : List Coord) :
    ((clusterIds d eps minPts pts).map
        (fun cid => (membersIdx d eps minPts pts cid).length)).sum
      + (noiseIdx d eps minPts pts).length = pts.length := by
  have h := (members_noise_perm d eps minPts pts).length_eq
  rw [List.length_append, List.length_flatten, List.map_map,
    List.length_range] at h
  exact h

/-! ### Fold-max lemmas for the cluster radius -/

theorem foldl_max_init_le (f : ClusterPoint → ℚ) (l : List ClusterPoint)
    (a : ℚ) : a ≤ l.foldl (fun m p => max m (f p)) a := by
  induction l generalizing a with
  | nil => exact le_refl a
  | cons x xs ih =>
    exact le_trans (le_max_left a (f x)) (ih (max a (f x)))

theorem foldl_max_mem_le (f : ClusterPoint → ℚ) (l : List ClusterPoint)
    (a : ℚ) : ∀ p ∈ l, f p ≤ l.foldl (fun m q => max m (f q)) a := by
  induction l generalizing a with
  | nil => intro p hp; cases hp
  | cons x xs ih =>
    intro p hp
    rcases List.mem_cons.mp hp with rfl | hp'
    · exact le_trans (le_max_right a (f p))
        (foldl_max_init_le f xs (max a (f p)))
    · exact ih (max a (f x)) p hp'

theorem foldl_max_attained (f : ClusterPoint → ℚ) (l : List ClusterPoint)
    (a : ℚ) : l.foldl (fun m q => max m (f q)) a = a ∨
      ∃ p ∈ l, l.foldl (fun m q => max m (f q)) a = f p := by
  induction l generalizing a with
  | nil => exact Or.inl rfl
  | cons x xs ih =>
    rcases ih (max a (f x)) with h | ⟨p, hp, hfp⟩
    · rw [List.foldl_cons, h]
      rcases le_total a (f x) with hle | hle
      · exact Or.inr ⟨x, List.mem_cons_self x xs, max_eq_right hle⟩
      · exact Or.inl (max_eq_left hle)
    · exact Or.inr ⟨p, List.mem_cons_of_mem x hp, by rw [List.foldl_cons, hfp]⟩

/-! ### The seed of a cluster belongs to it -/

theorem clusterIdOf_lt_seeds_length (d : Coord → Coord → ℚ) (eps minPts : ℚ)
    (pts : List Coord) {i k : ℕ}
    (h : clusterIdOf d eps minPts pts i = some k) :
    k < (seeds d eps minPts pts).length := by
  rw [clusterIdOf] at h
  split at h
  · exact firstIdx_lt_length h
  · exact firstIdx_lt_length h

theorem clusterIdOf_seed (d : Coord → Coord → ℚ) (eps minPts : ℚ)
    (pts : List Coord) {cid : ℕ}
    (hcid : cid < (seeds d eps minPts pts).length) :
    clusterIdOf d eps minPts pts
      ((seeds d eps minPts pts).getD cid 0) = some cid := by
  have hmem : (seeds d eps minPts pts).getD cid 0 ∈ seeds d eps minPts pts := by
    rw [List.getD_eq_getElem _ 0 hcid]
    exact List.getElem_mem hcid
  have hprops := seeds_props d eps minPts pts hmem
  rw [clusterIdOf, if_pos hprops.1]
  apply firstIdx_eq_some_of hcid
  · simp only [decide_eq_true_eq]
    exact self_mem_coreReach d eps minPts pts hprops.2
  · intro m hm
    have hmlt : m < (seeds d eps minPts pts).length := lt_trans hm hcid
    have hpair := List.pairwise_iff_get.mp (seeds_pairwise d eps minPts pts)
      ⟨m, hmlt⟩ ⟨cid, hcid⟩ (Fin.mk_lt_mk.mpr hm)
    simp only [decide_eq_false_iff_not]
    rw [List.getD_eq_getElem _ 0 hmlt, List.getD_eq_getElem _ 0 hcid]
    simpa [List.get_eq_getElem] using hpair

theorem clusterIdOf_of_mem_nbrs_seed_zero (d : Coord → Coord → ℚ)
    (eps minPts : ℚ) (pts : List Coord)
    (hne : 0 < (seeds d eps minPts pts).length) {j : ℕ}
    (hj : j ∈ nbrs d eps pts ((seeds d eps minPts pts).getD 0 0)) :
    clusterIdOf d eps minPts pts j = some 0 := by
  have hs0mem : (seeds d eps minPts pts).getD 0 0 ∈ seeds d eps minPts pts := by
    rw [List.getD_eq_getElem _ 0 hne]
    exact List.getElem_mem hne
  obtain ⟨hs0core, hs0lt⟩ := seeds_props d eps minPts pts hs0mem
  have hjlt : j < pts.length := List.mem_range.mp (List.mem_filter.mp hj).1
  have hdj : d (pts.getD ((seeds d eps minPts pts).getD 0 0) default)
      (pts.getD j default) ≤ eps := by
    have := (List.mem_filter.mp hj).2
    simpa using this
  obtain ⟨tl, htl⟩ : ∃ tl, seeds d eps minPts pts =
      (seeds d eps minPts pts).getD 0 0 :: tl := by
    cases hsd : seeds d eps minPts pts with
    | nil => rw [hsd] at hne; cases hne
    | cons a tl =>
      refine ⟨tl, ?_⟩
      simp
  by_cases hcj : isCore d eps minPts pts j = true
  · have hreach : j ∈ coreReach d eps minPts pts
        ((seeds d eps minPts pts).getD 0 0) := by
      apply mem_coreReach_of_step d eps minPts pts hs0lt
      rw [mem_growStep]
      exact ⟨hjlt, Or.inr ⟨hcj, _, Finset.mem_singleton_self _, hs0core, hdj⟩⟩
    rw [clusterIdOf, if_pos hcj, htl, firstIdx, if_pos (by simpa using hreach)]
  · have hpred : decide (∃ k ∈ coreReach d eps minPts pts
        ((seeds d eps minPts pts).getD 0 0), isCore d eps minPts pts k = true ∧
          d (pts.getD k default) (pts.getD j default) ≤ eps) = true := by
      simp only [decide_eq_true_eq]
      exact ⟨_, self_mem_coreReach d eps minPts pts hs0lt, hs0core, hdj⟩
    rw [clusterIdOf, if_neg (by simp [hcj]), htl, firstIdx, if_pos hpred]

theorem minPts_le_members_zero (d : Coord → Coord → ℚ) (eps minPts : ℚ)
    (pts : List Coord) (hne : 0 < (seeds d eps minPts pts).length) :
    minPts ≤ ((membersIdx d eps minPts pts 0).length : ℚ) := by
  have hs0mem : (seeds d eps minPts pts).getD 0 0 ∈ seeds d eps minPts pts := by
    rw [List.getD_eq_getElem _ 0 hne]
    exact List.getElem_mem hne
  obtain ⟨hs0core, _⟩ := seeds_props d eps minPts pts hs0mem
  have hlen : (nbrs d eps pts ((seeds d eps minPts pts).getD 0 0)).length ≤
      (membersIdx d eps minPts pts 0).length := by
    apply length_filter_mono
    intro j hjr hpj
    rw [beq_iff_eq]
    apply clusterIdOf_of_mem_nbrs_seed_zero d eps minPts pts hne
    rw [nbrs, List.mem_filter]
    exact ⟨hjr, hpj⟩
  have hcore' : minPts ≤ ((nbrs d eps pts
      ((seeds d eps minPts pts).getD 0 0)).length : ℚ) := by
    simpa [isCore] using hs0core
  exact le_trans hcore' (by exact_mod_cast hlen)

/-! ### More glue lemmas -/

theorem mkClusterPoint_report (d : Coord → Coord → ℚ) (eps minPts : ℚ)
    (rs : List AnalyticsComplianceReport) (i : ℕ) :
    (mkClusterPoint d eps minPts rs i).report = rs.getD i default := rfl

theorem mkClusterInfo_center (d : Coord → Coord → ℚ) (eps minPts : ℚ)
    (rs : List AnalyticsComplianceReport) (cid : ℕ) :
    (mkClusterInfo d eps minPts rs cid).center =
      { latitude :=
          ((mkClusterInfo d eps minPts rs cid).points.map fun p => p.lat).sum /
            ((mkClusterInfo d eps minPts rs cid).points.length : ℚ),
        longitude :=
          ((mkClusterInfo d eps minPts rs cid).points.map fun p => p.lng).sum /
            ((mkClusterInfo d eps minPts rs cid).points.length : ℚ) } := rfl

theorem mkClusterInfo_radius (d : Coord → Coord → ℚ) (eps minPts : ℚ)
    (rs : List AnalyticsComplianceReport) (cid : ℕ) :
    (mkClusterInfo d eps minPts rs cid).radius_km =
      (mkClusterInfo d eps minPts rs cid).points.foldl
        (fun m p => max m
          (d ⟨(mkClusterInfo d eps minPts rs cid).center.latitude,
              (mkClusterInfo d eps minPts rs cid).center.longitude⟩
            ⟨p.lat, p.lng⟩)) 0 := rfl

theorem membersIdx_ne_nil (d : Coord → Coord → ℚ) (eps minPts : ℚ)
    (pts : List Coord) {cid : ℕ}
    (hcid : cid ∈ clusterIds d eps minPts pts) :
    membersIdx d eps minPts pts cid ≠ [] := by
  rw [mem_clusterIds_iff] at hcid
  obtain ⟨i, hi, ha⟩ := hcid
  intro hnil
  have hmem : i ∈ membersIdx d eps minPts pts cid :=
    (mem_membersIdx d eps minPts pts i cid).mpr ⟨hi, ha⟩
  rw [hnil] at hmem
  cases hmem

theorem valid_of_getD (reports : List AnalyticsComplianceReport) {i : ℕ}
    (hi : i < (validReports reports).length) :
    hasValidLocation ((validReports reports).getD i default) = true := by
  have hmem : (validReports reports).getD i default ∈ validReports reports := by
    rw [List.getD_eq_getElem _ default hi]
    exact List.getElem_mem hi
  exact List.of_mem_filter hmem

theorem qAbs_nonneg (q : ℚ) : 0 ≤ qAbs q := by
  rw [qAbs]
  by_cases h : q < 0
  · rw [if_pos h]
    linarith
  · rw [if_neg h]
    linarith [not_lt.mp h]

theorem flatDist_self (x : Coord) : flatDist x x = 0 := by
  simp [flatDist, qAbs]

theorem flatDist_nonneg (x y : Coord) : 0 ≤ flatDist x y := by
  rw [flatDist]
  exact add_nonneg (qAbs_nonneg _) (qAbs_nonneg _)

/-- A tiny concrete input used by the witnesses: three reports on the equator
within 2 units of each other; with `eps = 2`, `minPts = 3` they form one
cluster of size 3 and no noise. -/
def witReports : List AnalyticsComplianceReport :=
  [mkReport "w0" 0 0, mkReport "w1" 0 1, mkReport "w2" 0 2]

/-- The seven equator reports of the cluster-size counterexample: a left
group at longitudes -4, -2, 0, a border point at 20, and a right group at
40, 42, 44.  With `eps = 21`, `minPts = 4` the left seed (longitude 0)
absorbs the border point 20 into cluster 0; the right seed (longitude 40)
is core only thanks to the already-claimed border point, so cluster 1 keeps
only 3 of the 4 points of its seed's neighborhood. -/
def claim3Reports : List AnalyticsComplianceReport :=
  [mkReport "p0" 0 (-4), mkReport "p1" 0 (-2), mkReport "p2" 0 0,
   mkReport "p3" 0 20, mkReport "p4" 0 40, mkReport "p5" 0 42,
   mkReport "p6" 0 44]

/-- Two reports at identical coordinates: they form one cluster of size 2
whose radius is 0. -/
def claim6Reports : List AnalyticsComplianceReport :=
  [mkReport "d0" 5 5, mkReport "d1" 5 5]

/-- Boolean form of claim C3 ("every returned cluster has size at least
minPoints") evaluated on one analysis outcome; an error outcome counts as
vacuously true. -/
def allClustersMeetMinPts (res : Except String AnalyticsResults)
    (minPts : ℕ) : Bool :=
  match res with
  | .ok r => r.clusters.all fun c => minPts ≤ c.size
  | .error _ => true

/-- Boolean form of the claim-C6 conjunct "radius_km = 0 only for singleton
clusters" evaluated on one analysis outcome. -/
def radiusZeroOnlySingleton (res : Except String AnalyticsResults) : Bool :=
  match res with
  | .ok r => r.clusters.all fun c => decide (c.radius_km = 0 → c.size = 1)
  | .error _ => true

/-! ### The claims -/

/-- Claim C2: `analyzeComplianceReports` fails with the empty-input error if
and only if the filter keeping reports with both coordinates present and
numeric leaves nothing; with at least one valid geolocated report this error
is never raised. -/
theorem claim2_empty_input_error (d : Coord → Coord → ℚ)
    (reports : List AnalyticsComplianceReport) (eps minPts : ℚ) :
    analyzeComplianceReports d reports eps minPts = .error emptyInputMsg ↔
      reports.filter hasValidLocation = [] := by
  rw [analyze_eq_error_iff]
  show validReports reports = [] ∧ emptyInputMsg = emptyInputMsg ↔ _
  simp [validReports]

/-- Claim C9: the engine is total — whenever at least one valid geolocated
report survives the filter it returns a result, for every epsilon (including
zero and negative values) and every minPoints value; the only error it can
produce is the empty-input error, and only on an empty filtered set. -/
theorem claim9_totality (d : Coord → Coord → ℚ)
    (reports : List AnalyticsComplianceReport) (eps minPts : ℚ) :
    (validReports reports ≠ [] →
      ∃ res, analyzeComplianceReports d reports eps minPts = .ok res) ∧
    ∀ e, analyzeComplianceReports d reports eps minPts = .error e →
      e = emptyInputMsg ∧ validReports reports = [] := by
  constructor
  · intro hne
    exact ⟨_, (analyze_eq_ok_iff d reports eps minPts _).mpr ⟨hne, rfl⟩⟩
  · intro e he
    have h := (analyze_eq_error_iff d reports eps minPts e).mp he
    exact ⟨h.2, h.1⟩

/-- Witness for C9 at a concrete input: three valid reports, epsilon 0
(degenerate) — the analysis still succeeds. -/
theorem claim9_totality_witness :
    validReports witReports ≠ [] ∧
      ∃ res, analyzeComplianceReports flatDist witReports 0 3 = .ok res := by
  have h := (claim9_totality flatDist witReports 0 3).1 (by decide)
  exact ⟨by decide, h⟩

/-- Claim C10: if the parsed `maxDistance` (after the `|| 1000` default) is
not positive, or the parsed `minPoints` (after the `|| 3` default) is below
1, the handler answers 400 without invoking the engine (the `badRequest`
outcome is produced before the store query and the engine call). -/
theorem claim10_param_validation (d : Coord → Coord → ℚ) (q : AnalyzeQuery)
    (storeReports : List AnalyticsComplianceReport)
    (h : jsNumOr q.maxDistance 1000 ≤ 0 ∨ jsNumOr q.minPoints 3 < 1) :
    analyzeCompliance d q storeReports = .badRequest := by
  rw [analyzeCompliance, if_pos h]

/-- Witness for C10 at a concrete input: `maxDistance = -5` parses to a
negative value, so the handler answers 400 even with a valid store. -/
theorem claim10_param_validation_witness :
    (jsNumOr (JsNum.num (-5)) 1000 ≤ 0 ∨ jsNumOr JsNum.nan 3 < 1) ∧
      analyzeCompliance flatDist
        { maxDistance := JsNum.num (-5), minPoints := JsNum.nan }
        witReports = .badRequest := by
  have hc : jsNumOr (JsNum.num (-5)) 1000 ≤ 0 ∨ jsNumOr JsNum.nan 3 < 1 :=
    Or.inl (by norm_num [jsNumOr])
  exact ⟨hc, claim10_param_validation flatDist _ witReports hc⟩

/-- Claim C4: with the reports and minPoints fixed, the noise-point count is
monotonically non-increasing in epsilon: a successful analysis at the larger
epsilon has at most as many noise points as one at the smaller epsilon. -/
theorem claim4_noise_monotone (d : Coord → Coord → ℚ)
    (reports : List AnalyticsComplianceReport) (minPts : ℚ) {eps1 eps2 : ℚ}
    (hle : eps1 ≤ eps2) (r1 r2 : AnalyticsResults)
    (h1 : analyzeComplianceReports d reports eps1 minPts = .ok r1)
    (h2 : analyzeComplianceReports d reports eps2 minPts = .ok r2) :
    r2.noise_points.length ≤ r1.noise_points.length := by
  obtain ⟨-, rfl⟩ := (analyze_eq_ok_iff d reports eps1 minPts r1).mp h1
  obtain ⟨-, rfl⟩ := (analyze_eq_ok_iff d reports eps2 minPts r2).mp h2
  show (noisePointsOf d eps2 minPts (validReports reports)).length ≤
    (noisePointsOf d eps1 minPts (validReports reports)).length
  rw [noisePointsOf_length, noisePointsOf_length]
  exact noiseIdx_length_mono d minPts (ptsOf (validReports reports)) hle

/-- Witness for C4 at a concrete input: epsilons 1 ≤ 2 on the three-report
input. -/
theorem claim4_noise_monotone_witness :
    ∃ r1 r2, analyzeComplianceReports flatDist witReports 1 3 = .ok r1 ∧
      analyzeComplianceReports flatDist witReports 2 3 = .ok r2 ∧
      r2.noise_points.length ≤ r1.noise_points.length := by
  have h1 : analyzeComplianceReports flatDist witReports 1 3 =
      .ok (buildResults flatDist 1 3 (validReports witReports)) :=
    (analyze_eq_ok_iff flatDist witReports 1 3 _).mpr ⟨by decide, rfl⟩
  have h2 : analyzeComplianceReports flatDist witReports 2 3 =
      .ok (buildResults flatDist 2 3 (validReports witReports)) :=
    (analyze_eq_ok_iff flatDist witReports 2 3 _).mpr ⟨by decide, rfl⟩
  exact ⟨_, _, h1, h2,
    claim4_noise_monotone flatDist witReports 3 (by norm_num) _ _ h1 h2⟩

/-- Claim C5: every returned cluster's centroid is the arithmetic mean of its
member coordinates — exactly in the rational model, hence in particular
within the 1e-9 tolerance of the claim. -/
theorem claim5_centroid (d : Coord → Coord → ℚ)
    (reports : List AnalyticsComplianceReport) (eps minPts : ℚ)
    (r : AnalyticsResults)
    (h : analyzeComplianceReports d reports eps minPts = .ok r) :
    ∀ c ∈ r.clusters,
      c.center.latitude =
        (c.points.map fun p => p.lat).sum / (c.points.length : ℚ) ∧
      c.center.longitude =
        (c.points.map fun p => p.lng).sum / (c.points.length : ℚ) ∧
      |c.center.latitude -
        (c.points.map fun p => p.lat).sum / (c.points.length : ℚ)| ≤
          1 / 1000000000 ∧
      |c.center.longitude -
        (c.points.map fun p => p.lng).sum / (c.points.length : ℚ)| ≤
          1 / 1000000000 := by
  obtain ⟨hne, rfl⟩ := (analyze_eq_ok_iff d reports eps minPts r).mp h
  intro c hc
  rw [mem_clusters_iff_pre, mem_clusterInfosPre] at hc
  obtain ⟨cid, hcid, rfl⟩ := hc
  have hlat : (mkClusterInfo d eps minPts (validReports reports) cid).center.latitude =
      ((mkClusterInfo d eps minPts (validReports reports) cid).points.map
        fun p => p.lat).sum /
        (((mkClusterInfo d eps minPts (validReports reports) cid).points.length : ℚ)) := rfl
  have hlng : (mkClusterInfo d eps minPts (validReports reports) cid).center.longitude =
      ((mkClusterInfo d eps minPts (validReports reports) cid).points.map
        fun p => p.lng).sum /
        (((mkClusterInfo d eps minPts (validReports reports) cid).points.length : ℚ)) := rfl
  refine ⟨hlat, hlng, ?_, ?_⟩
  · rw [hlat, sub_self, abs_zero]
    norm_num
  · rw [hlng, sub_self, abs_zero]
    norm_num

/-- Witness for C5 at a concrete input. -/
theorem claim5_centroid_witness :
    ∃ r, analyzeComplianceReports flatDist witReports 2 3 = .ok r ∧
      ∀ c ∈ r.clusters,
        c.center.latitude =
          (c.points.map fun p => p.lat).sum / (c.points.length : ℚ) ∧
        c.center.longitude =
          (c.points.map fun p => p.lng).sum / (c.points.length : ℚ) ∧
        |c.center.latitude -
          (c.points.map fun p => p.lat).sum / (c.points.length : ℚ)| ≤
            1 / 1000000000 ∧
        |c.center.longitude -
          (c.points.map fun p => p.lng).sum / (c.points.length : ℚ)| ≤
            1 / 1000000000 := by
  have hok : analyzeComplianceReports flatDist witReports 2 3 =
      .ok (buildResults flatDist 2 3 (validReports witReports)) :=
    (analyze_eq_ok_iff flatDist witReports 2 3 _).mpr ⟨by decide, rfl⟩
  exact ⟨_, hok, claim5_centroid flatDist witReports 2 3 _ hok⟩

/-- Claim C7: the returned cluster list is sorted by size descending, and the
sort is stable with respect to the discovery order: for every size, the
clusters of that size appear exactly as in the pre-sort list, which is built
in the order cluster ids are first encountered while iterating the filtered
input. -/
theorem claim7_sort_order (d : Coord → Coord → ℚ)
    (reports : List AnalyticsComplianceReport) (eps minPts : ℚ)
    (r : AnalyticsResults)
    (h : analyzeComplianceReports d reports eps minPts = .ok r) :
    r.clusters.Pairwise (fun a b => b.size ≤ a.size) ∧
    ∀ s : ℕ, r.clusters.filter (fun c => c.size == s) =
      (clusterInfosPre d eps minPts (validReports reports)).filter
        (fun c => c.size == s) := by
  obtain ⟨hne, rfl⟩ := (analyze_eq_ok_iff d reports eps minPts r).mp h
  exact ⟨sortBySizeDesc_sorted _, fun s => filter_size_sortBySizeDesc _ s⟩

/-- Witness for C7 at a concrete input. -/
theorem claim7_sort_order_witness :
    ∃ r, analyzeComplianceReports flatDist witReports 2 3 = .ok r ∧
      r.clusters.Pairwise (fun a b => b.size ≤ a.size) ∧
      ∀ s : ℕ, r.clusters.filter (fun c => c.size == s) =
        (clusterInfosPre flatDist 2 3 (validReports witReports)).filter
          (fun c => c.size == s) := by
  have hok : analyzeComplianceReports flatDist witReports 2 3 =
      .ok (buildResults flatDist 2 3 (validReports witReports)) :=
    (analyze_eq_ok_iff flatDist witReports 2 3 _).mpr ⟨by decide, rfl⟩
  exact ⟨_, hok, claim7_sort_order flatDist witReports 2 3 _ hok⟩

/-- Every report attached to a point built from a filtered-input index passed
the location-validity filter. -/
theorem appearing_reports_valid (d : Coord → Coord → ℚ) (eps minPts : ℚ)
    (reports : List AnalyticsComplianceReport) {l : List ℕ}
    (hl : ∀ i ∈ l, i < (ptsOf (validReports reports)).length) :
    ∀ p ∈ l.map (mkClusterPoint d eps minPts (validReports reports)),
      hasValidLocation p.report = true ∧ p.report ∈ validReports reports := by
  intro p hp
  rcases List.mem_map.mp hp with ⟨i, hi, rfl⟩
  have hilt : i < (validReports reports).length := by
    have := hl i hi
    rwa [ptsOf_length] at this
  rw [mkClusterPoint_report]
  have hmem : (validReports reports).getD i default ∈ validReports reports := by
    rw [List.getD_eq_getElem _ default hilt]
    exact List.getElem_mem hilt
  exact ⟨List.of_mem_filter hmem, hmem⟩

/-- Claim C8: a report whose latitude or longitude is absent or `NaN` never
appears in any cluster's point list or in the noise list, and is not counted
in `total_points` (every appearing report passed the validity filter, and
`total_points` counts exactly the filtered reports).  In the declared input
type a missing coordinate (`null` or `undefined`) is an absent optional
field. -/
theorem claim8_filtering (d : Coord → Coord → ℚ)
    (reports : List AnalyticsComplianceReport) (eps minPts : ℚ)
    (r : AnalyticsResults)
    (h : analyzeComplianceReports d reports eps minPts = .ok r) :
    (∀ c ∈ r.clusters, ∀ p ∈ c.points, hasValidLocation p.report = true) ∧
    (∀ p ∈ r.noise_points, hasValidLocation p.report = true) ∧
    r.summary.total_points = (reports.filter hasValidLocation).length ∧
    ∀ rep : AnalyticsComplianceReport, hasValidLocation rep = false →
      (∀ c ∈ r.clusters, ∀ p ∈ c.points, p.report ≠ rep) ∧
      ∀ p ∈ r.noise_points, p.report ≠ rep := by
  obtain ⟨hne, rfl⟩ := (analyze_eq_ok_iff d reports eps minPts r).mp h
  have hcl : ∀ c ∈ (buildResults d eps minPts (validReports reports)).clusters,
      ∀ p ∈ c.points, hasValidLocation p.report = true := by
    intro c hc p hp
    rw [mem_clusters_iff_pre, mem_clusterInfosPre] at hc
    obtain ⟨cid, hcid, rfl⟩ := hc
    rw [mkClusterInfo_points] at hp
    refine (appearing_reports_valid d eps minPts reports ?_ p hp).1
    intro i hi
    exact ((mem_membersIdx d eps minPts (ptsOf (validReports reports)) i cid).mp
      hi).1
  have hnoise : ∀ p ∈ (buildResults d eps minPts
      (validReports reports)).noise_points, hasValidLocation p.report = true := by
    intro p hp
    have hp' : p ∈ (noiseIdx d eps minPts (ptsOf (validReports reports))).map
        (mkClusterPoint d eps minPts (validReports reports)) := hp
    refine (appearing_reports_valid d eps minPts reports ?_ p hp').1
    intro i hi
    exact ((mem_noiseIdx d eps minPts (ptsOf (validReports reports)) i).mp hi).1
  refine ⟨hcl, hnoise, rfl, ?_⟩
  intro rep hrep
  constructor
  · intro c hc p hp heq
    have hv := hcl c hc p hp
    rw [heq, hrep] at hv
    cases hv
  · intro p hp heq
    have hv := hnoise p hp
    rw [heq, hrep] at hv
    cases hv

/-- A report lacking a longitude. -/
def badReport1 : AnalyticsComplianceReport :=
  { mongoId := "bad1", agentId := "agent", status := .COMPLIANT,
    location := some
      { latitude := some (.num 3), longitude := none, address := none } }

/-- A report with a NaN latitude. -/
def badReport2 : AnalyticsComplianceReport :=
  { mongoId := "bad2", agentId := "agent", status := .COMPLIANT,
    location := some
      { latitude := some .nan, longitude := some (.num 4),
        address := none } }

/-- Witness for C8 at a concrete input: the valid three reports together with
one report lacking a longitude and one with a NaN latitude. -/
theorem claim8_filtering_witness :
    ∃ r, analyzeComplianceReports flatDist
        (witReports ++ [badReport1, badReport2]) 2 3 = .ok r ∧
      ((∀ c ∈ r.clusters, ∀ p ∈ c.points, hasValidLocation p.report = true) ∧
       (∀ p ∈ r.noise_points, hasValidLocation p.report = true) ∧
       r.summary.total_points =
         ((witReports ++ [badReport1, badReport2]).filter
           hasValidLocation).length ∧
       ∀ rep : AnalyticsComplianceReport, hasValidLocation rep = false →
         (∀ c ∈ r.clusters, ∀ p ∈ c.points, p.report ≠ rep) ∧
         ∀ p ∈ r.noise_points, p.report ≠ rep) := by
  have hok : analyzeComplianceReports flatDist
      (witReports ++ [badReport1, badReport2]) 2 3 =
      .ok (buildResults flatDist 2 3
        (validReports (witReports ++ [badReport1, badReport2]))) :=
    (analyze_eq_ok_iff flatDist _ 2 3 _).mpr ⟨by decide, rfl⟩
  exact ⟨_, hok, claim8_filtering flatDist _ 2 3 _ hok⟩

/-- Claim C1: in every successful analysis each filtered-input index appears
exactly once across the clusters' point lists and the noise list (their
indices are a permutation of `range total_points`), and `total_points`
equals the sum of the cluster sizes plus the noise count. -/
theorem claim1_conservation (d : Coord → Coord → ℚ)
    (reports : List AnalyticsComplianceReport) (eps minPts : ℚ)
    (r : AnalyticsResults)
    (h : analyzeComplianceReports d reports eps minPts = .ok r) :
    (((r.clusters.map fun c => c.points.map fun p => p.index).flatten
        ++ r.noise_points.map fun p => p.index).Perm
      (List.range r.summary.total_points))
    ∧ r.summary.total_points =
        (r.clusters.map fun c => c.size).sum + r.noise_points.length := by
  obtain ⟨hne, rfl⟩ := (analyze_eq_ok_iff d reports eps minPts r).mp h
  have hclusters : (buildResults d eps minPts (validReports reports)).clusters =
      sortBySizeDesc (clusterInfosPre d eps minPts (validReports reports)) := rfl
  have hnoise : (buildResults d eps minPts (validReports reports)).noise_points =
      noisePointsOf d eps minPts (validReports reports) := rfl
  have htotal : (buildResults d eps minPts
      (validReports reports)).summary.total_points =
      (validReports reports).length := rfl
  have hflat : ∀ x : ℕ, List.count x
      (((sortBySizeDesc (clusterInfosPre d eps minPts (validReports reports))).map
        (fun c => c.points.map fun p => p.index)).flatten) =
      List.count x (((clusterIds d eps minPts (ptsOf (validReports reports))).map
        (membersIdx d eps minPts (ptsOf (validReports reports)))).flatten) := by
    intro x
    rw [count_flatten_map, count_flatten_map]
    have hperm := (sortBySizeDesc_perm
      (clusterInfosPre d eps minPts (validReports reports))).map
      (fun c => List.count x (c.points.map fun p => p.index))
    rw [hperm.sum_eq, clusterInfosPre, List.map_map]
    congr 1
    apply List.map_congr_left
    intro cid _
    show List.count x
      ((mkClusterInfo d eps minPts (validReports reports) cid).points.map
        fun p => p.index) = _
    rw [mkClusterInfo_points, map_index_map_mk]
  constructor
  · rw [hclusters, hnoise, htotal, List.perm_iff_count]
    intro x
    rw [List.count_append, noisePointsOf_map_index, hflat]
    have h2 := members_noise_count d eps minPts (ptsOf (validReports reports)) x
    rwa [ptsOf_length] at h2
  · rw [hclusters, hnoise, htotal, noisePointsOf_length]
    have hsz : ((sortBySizeDesc (clusterInfosPre d eps minPts
        (validReports reports))).map fun c => c.size).sum =
        ((clusterIds d eps minPts (ptsOf (validReports reports))).map
          (fun cid => (membersIdx d eps minPts
            (ptsOf (validReports reports)) cid).length)).sum := by
      rw [((sortBySizeDesc_perm _).map fun c => c.size).sum_eq,
        clusterInfosPre, List.map_map]
      congr 1
      apply List.map_congr_left
      intro cid _
      exact mkClusterInfo_size d eps minPts (validReports reports) cid
    rw [hsz]
    have h3 := members_noise_length d eps minPts (ptsOf (validReports reports))
    rw [ptsOf_length] at h3
    exact h3.symm

/-- Witness for C1 at a concrete input. -/
theorem claim1_conservation_witness :
    ∃ r, analyzeComplianceReports flatDist witReports 2 3 = .ok r ∧
      ((((r.clusters.map fun c => c.points.map fun p => p.index).flatten
          ++ r.noise_points.map fun p => p.index).Perm
        (List.range r.summary.total_points))
      ∧ r.summary.total_points =
          (r.clusters.map fun c => c.size).sum + r.noise_points.length) := by
  have hok : analyzeComplianceReports flatDist witReports 2 3 =
      .ok (buildResults flatDist 2 3 (validReports witReports)) :=
    (analyze_eq_ok_iff flatDist witReports 2 3 _).mpr ⟨by decide, rfl⟩
  exact ⟨_, hok, claim1_conservation flatDist witReports 2 3 _ hok⟩

/-- Claim C3 counterexample: with `eps = 21`, `minPts = 4` on the seven
equator reports, the analysis succeeds and returns a cluster of size 3 < 4
(the border point at longitude 20 is absorbed by the earlier cluster and
never reassigned, so the later cluster keeps only three points). -/
theorem claim3_counterexample :
    allClustersMeetMinPts
      (analyzeComplianceReports flatDist claim3Reports 21 4) 4 = false := by
  with_unfolding_all rfl

/-- Claim C3 (amended): every returned cluster contains at least one core
point — a point with at least `minPts` points in its eps-neighborhood — and
the first-discovered cluster (cluster id 0) always has size at least
`minPts`; the bound can fail for later clusters (see the counterexample). -/
theorem claim3_size_floor_amended (d : Coord → Coord → ℚ)
    (reports : List AnalyticsComplianceReport) (eps minPts : ℚ)
    (r : AnalyticsResults)
    (h : analyzeComplianceReports d reports eps minPts = .ok r) :
    ∀ c ∈ r.clusters,
      (∃ p ∈ c.points, minPts ≤
        ((nbrs d eps (ptsOf (validReports reports)) p.index).length : ℚ)) ∧
      (c.cluster_id = 0 → minPts ≤ (c.size : ℚ)) := by
  obtain ⟨hne, rfl⟩ := (analyze_eq_ok_iff d reports eps minPts r).mp h
  intro c hc
  rw [mem_clusters_iff_pre, mem_clusterInfosPre] at hc
  obtain ⟨cid, hcid, rfl⟩ := hc
  have hcid' := hcid
  rw [mem_clusterIds_iff] at hcid'
  obtain ⟨i, hi, hassign⟩ := hcid'
  have hcidlt := clusterIdOf_lt_seeds_length d eps minPts
    (ptsOf (validReports reports)) hassign
  constructor
  · have hseedmem : (seeds d eps minPts
        (ptsOf (validReports reports))).getD cid 0 ∈
        seeds d eps minPts (ptsOf (validReports reports)) := by
      rw [List.getD_eq_getElem _ 0 hcidlt]
      exact List.getElem_mem hcidlt
    obtain ⟨hscore, hslt⟩ := seeds_props d eps minPts _ hseedmem
    refine ⟨mkClusterPoint d eps minPts (validReports reports)
      ((seeds d eps minPts (ptsOf (validReports reports))).getD cid 0),
      ?_, ?_⟩
    · rw [mkClusterInfo_points]
      apply List.mem_map_of_mem
      exact (mem_membersIdx d eps minPts _ _ cid).mpr
        ⟨hslt, clusterIdOf_seed d eps minPts _ hcidlt⟩
    · rw [mkClusterPoint_index]
      simpa [isCore] using hscore
  · intro hid
    have hcid0 : cid = 0 := by
      rw [mkClusterInfo_id] at hid
      exact hid
    subst hcid0
    rw [mkClusterInfo_size]
    exact minPts_le_members_zero d eps minPts _ hcidlt

/-- Witness for the amended C3 at a concrete input. -/
theorem claim3_size_floor_amended_witness :
    ∃ r, analyzeComplianceReports flatDist witReports 2 3 = .ok r ∧
      ∀ c ∈ r.clusters,
        (∃ p ∈ c.points, (3 : ℚ) ≤
          ((nbrs flatDist 2 (ptsOf (validReports witReports))
            p.index).length : ℚ)) ∧
        (c.cluster_id = 0 → (3 : ℚ) ≤ (c.size : ℚ)) := by
  have hok : analyzeComplianceReports flatDist witReports 2 3 =
      .ok (buildResults flatDist 2 3 (validReports witReports)) :=
    (analyze_eq_ok_iff flatDist witReports 2 3 _).mpr ⟨by decide, rfl⟩
  exact ⟨_, hok, claim3_size_floor_amended flatDist witReports 2 3 _ hok⟩

/-- Claim C6 counterexample: two reports at identical coordinates form a
cluster of size 2 with radius 0, so "radius_km = 0 only for singleton
clusters" is false. -/
theorem claim6_counterexample :
    radiusZeroOnlySingleton
      (analyzeComplianceReports flatDist claim6Reports 1 2) = false := by
  with_unfolding_all rfl

/-- Claim C6 (amended): for every cluster the radius is the maximum distance
from the centroid to a member (an upper bound that is attained), it is
nonnegative, it is 0 for singleton clusters, and radius 0 means every member
is at distance 0 from the centroid — which does not force size 1, since
distinct members may share identical coordinates (see the counterexample). -/
theorem claim6_radius_amended (d : Coord → Coord → ℚ)
    (hd0 : ∀ x, d x x = 0) (hdnn : ∀ x y, 0 ≤ d x y)
    (reports : List AnalyticsComplianceReport) (eps minPts : ℚ)
    (r : AnalyticsResults)
    (h : analyzeComplianceReports d reports eps minPts = .ok r) :
    ∀ c ∈ r.clusters,
      0 ≤ c.radius_km ∧
      (∀ p ∈ c.points,
        d ⟨c.center.latitude, c.center.longitude⟩ ⟨p.lat, p.lng⟩ ≤
          c.radius_km) ∧
      (∃ p ∈ c.points,
        c.radius_km = d ⟨c.center.latitude, c.center.longitude⟩
          ⟨p.lat, p.lng⟩) ∧
      (c.size = 1 → c.radius_km = 0) ∧
      (c.radius_km = 0 → ∀ p ∈ c.points,
        d ⟨c.center.latitude, c.center.longitude⟩ ⟨p.lat, p.lng⟩ = 0) := by
  obtain ⟨hne, rfl⟩ := (analyze_eq_ok_iff d reports eps minPts r).mp h
  intro c hc
  rw [mem_clusters_iff_pre, mem_clusterInfosPre] at hc
  obtain ⟨cid, hcid, rfl⟩ := hc
  have hb : ∀ p ∈ (mkClusterInfo d eps minPts (validReports reports) cid).points,
      d ⟨(mkClusterInfo d eps minPts (validReports reports) cid).center.latitude,
         (mkClusterInfo d eps minPts (validReports reports) cid).center.longitude⟩
        ⟨p.lat, p.lng⟩ ≤
        (mkClusterInfo d eps minPts (validReports reports) cid).radius_km := by
    intro p hp
    rw [mkClusterInfo_radius]
    exact foldl_max_mem_le _ _ 0 p hp
  refine ⟨?_, hb, ?_, ?_, ?_⟩
  · rw [mkClusterInfo_radius]
    exact foldl_max_init_le _ _ 0
  · rcases foldl_max_attained
      (fun q => d ⟨(mkClusterInfo d eps minPts (validReports reports) cid).center.latitude,
        (mkClusterInfo d eps minPts (validReports reports) cid).center.longitude⟩
          ⟨q.lat, q.lng⟩)
      (mkClusterInfo d eps minPts (validReports reports) cid).points 0 with
      hz | ⟨p, hp, hfp⟩
    · have hnil : (mkClusterInfo d eps minPts (validReports reports) cid).points ≠ [] := by
        rw [mkClusterInfo_points]
        intro hmap
        exact membersIdx_ne_nil d eps minPts _ hcid (List.map_eq_nil.mp hmap)
      obtain ⟨p0, hp0⟩ := List.exists_mem_of_ne_nil _ hnil
      have hrad0 : (mkClusterInfo d eps minPts (validReports reports) cid).radius_km = 0 := by
        rw [mkClusterInfo_radius, hz]
      have hle := hb p0 hp0
      rw [hrad0] at hle
      refine ⟨p0, hp0, ?_⟩
      rw [hrad0]
      exact (le_antisymm hle (hdnn _ _)).symm
    · exact ⟨p, hp, by rw [mkClusterInfo_radius, hfp]⟩
  · intro hsize
    have hlen : (mkClusterInfo d eps minPts (validReports reports) cid).points.length = 1 := by
      have hsz : (mkClusterInfo d eps minPts (validReports reports) cid).size =
          (mkClusterInfo d eps minPts (validReports reports) cid).points.length := by
        rw [mkClusterInfo_size, mkClusterInfo_points, List.length_map]
      rw [← hsz]
      exact hsize
    obtain ⟨p, hp⟩ := List.length_eq_one.mp hlen
    have hcenter :
        (⟨(mkClusterInfo d eps minPts (validReports reports) cid).center.latitude,
          (mkClusterInfo d eps minPts (validReports reports) cid).center.longitude⟩ :
            Coord) = ⟨p.lat, p.lng⟩ := by
      rw [mkClusterInfo_center]
      simp [hp]
    rw [mkClusterInfo_radius, hp]
    simp only [List.foldl_cons, List.foldl_nil]
    rw [hcenter, hd0, max_self]
  · intro hrad0 p hp
    have hle := hb p hp
    rw [hrad0] at hle
    exact le_antisymm hle (hdnn _ _)

/-- Witness for the amended C6 at a concrete input. -/
theorem claim6_radius_amended_witness :
    ∃ r, analyzeComplianceReports flatDist witReports 2 3 = .ok r ∧
      ∀ c ∈ r.clusters,
        0 ≤ c.radius_km ∧
        (∀ p ∈ c.points,
          flatDist ⟨c.center.latitude, c.center.longitude⟩ ⟨p.lat, p.lng⟩ ≤
            c.radius_km) ∧
        (∃ p ∈ c.points,
          c.radius_km = flatDist ⟨c.center.latitude, c.center.longitude⟩
            ⟨p.lat, p.lng⟩) ∧
        (c.size = 1 → c.radius_km = 0) ∧
        (c.radius_km = 0 → ∀ p ∈ c.points,
          flatDist ⟨c.center.latitude, c.center.longitude⟩
            ⟨p.lat, p.lng⟩ = 0) := by
  have hok : analyzeComplianceReports flatDist witReports 2 3 =
      .ok (buildResults flatDist 2 3 (validReports witReports)) :=
    (analyze_eq_ok_iff flatDist witReports 2 3 _).mpr ⟨by decide, rfl⟩
  exact ⟨_, hok, claim6_radius_amended flatDist flatDist_self flatDist_nonneg
    witReports 2 3 _ hok⟩

end RcvApi
